import Mathlib

/-!
Verification development for the 8255 interpreter: a line-numbered
assembly-style language over a fixed-size byte arena ("the stack").
The definitions below are a shallow embedding of the Python sources
(`8255/stack.py`, `8255/construct.py`, `8255/__main__.py`):
machine integers become `Int`/`Nat` with explicit two's-complement
arithmetic, the byte arena becomes a `List Cell`, Python exceptions
become `Except` values tagged by which exception class was raised
(the engine distinguishes `StackError` subclasses from builtin
exceptions), and Python strings become their lists of code points.
Console I/O (print, the clear-screen escape) is dropped; stdin is an
explicit list of input lines threaded through the machine state.
-/

set_option maxHeartbeats 1000000

/-- Error kinds: each constructor records which Python exception class was
raised. The first group are builtin exceptions, the second group are
subclasses of `StackError` from `stack.py`; the engine's recovery logic
branches on exactly that distinction. -/
inductive Err where
  | syntaxErr
  | valueErr
  | typeErr
  | overflowErr
  | unicodeErr
  | keyErr
  | indexErr
  | eofErr
  | zeroDivErr
  | attrErr
  | genericExc
  | notAllocated
  | nullData
  | reservedName
  | memoryOverflow
  | notsetGet
deriving DecidableEq, Repr

/-- Which errors are instances of `StackError` (`isinstance(e, StackError)`
in the engine's `except` clause). -/
def Err.isStackError : Err → Bool
  | .notAllocated | .nullData | .reservedName | .memoryOverflow | .notsetGet => true
  | _ => false

/-- Decidable equality for `Except` results, so that concrete witnesses can
be checked by evaluation. -/
instance {e : Type} {a : Type} [DecidableEq e] [DecidableEq a] : DecidableEq (Except e a) := by
  intro x y
  cases x with
  | ok v =>
      cases y with
      | ok w => exact if h : v = w then .isTrue (by rw [h]) else .isFalse (by simp [h])
      | error w => exact .isFalse (by simp)
  | error v =>
      cases y with
      | ok w => exact .isFalse (by simp)
      | error w => exact if h : v = w then .isTrue (by rw [h]) else .isFalse (by simp [h])

/-- One arena cell of `Stack.store`: `free` is Python `None`, `allocMark` is
the `ALLOCATED = b"\x00"` marker written by `allocate`, and `byte b` is an
integer byte value written by `write`. -/
inductive Cell where
  | free
  | allocMark
  | byte (b : Nat)
deriving DecidableEq, Repr

/-- Runtime values flowing through the engine: Python `int`, Python `str`
(modelled as its list of code points), and Python `float`. A `float` only
ever arises as the result of `div` (true division) or `pow` with a negative
exponent; every attempt to store one fails before the value is inspected, so
the payload is not modelled. -/
inductive Value where
  | int (i : Int)
  | str (s : List Nat)
  | float
deriving DecidableEq, Repr

/-- The `DataType` enum of `stack.py`. -/
inductive DataType where
  | INTEGER
  | STRING
  | NOTSET
deriving DecidableEq, Repr

/-- The `Allocation` dataclass: `{start, end, size}`. `end` is a Lean
keyword, so the field is named `end_`. -/
structure Allocation where
  start : Nat
  end_ : Nat
  size : Nat
deriving DecidableEq, Repr

/-- A name binding of `Stack.vars`: either an arena-backed `Register`
(allocation plus datatype) or a `ReservedRegister` holding a value
directly. -/
inductive Binding where
  | register (allocation : Allocation) (datatype : DataType)
  | reservedRegister (value : Value)
deriving DecidableEq, Repr

/-- The `Stack` object: declared byte budget, the name-to-binding registry
(insertion-ordered association list, mirroring the Python dict), and the
arena. -/
structure StackSt where
  size : Nat
  vars : List (String × Binding)
  store : List Cell
deriving DecidableEq, Repr

/-- `Stack.__init__`: three reserved registers holding integer `0`, and a
store of `size` free (`None`) cells. -/
def initStack (size : Nat) : StackSt :=
  { size := size
    vars := [("slx", .reservedRegister (.int 0)),
             ("sly", .reservedRegister (.int 0)),
             ("slz", .reservedRegister (.int 0))]
    store := List.replicate size Cell.free }

/-- Dictionary lookup `self.vars[name]` / `name in self.vars`. -/
def lookupVar (stk : StackSt) (name : String) : Option Binding :=
  stk.vars.lookup name

/-- Overwrite the binding of an existing key, keeping dict order (Python
`self.vars[name] = ...` on a present key). On an absent key this is the
identity; every call site first checks presence. -/
def setVar (stk : StackSt) (name : String) (b : Binding) : StackSt :=
  { stk with vars := stk.vars.map (fun pr => if pr.1 = name then (name, b) else pr) }

/-- Python list slice assignment `store[lo:hi] = vals` for `lo ≤ hi`
(the only shape the source uses): the elements at positions `[lo, hi)` are
replaced by `vals`. -/
def pySliceAssign (store : List Cell) (lo hi : Nat) (vals : List Cell) : List Cell :=
  store.take lo ++ vals ++ store.drop hi

/-- Big-endian bytes of `u`, exactly `n` of them (`int.to_bytes`): the value
stored is `u mod 256 ^ n`. -/
def natToBytesBE : Nat → Nat → List Nat
  | 0, _ => []
  | n + 1, u => natToBytesBE n (u / 256) ++ [u % 256]

/-- Big-endian value of a byte list (`int.from_bytes`, unsigned reading). -/
def bytesToNatBE (bs : List Nat) : Nat :=
  bs.foldl (fun acc b => acc * 256 + b) 0

/-- Signed big-endian reading of a byte list
(`int.from_bytes(..., signed = True)`): reinterpret the unsigned value as
two's complement of width `8 * length` bits. -/
def bytesToIntSigned (bs : List Nat) : Int :=
  let u := bytesToNatBE bs
  if u < 2 ^ (8 * bs.length - 1) then (u : Int) else (u : Int) - (2 : Int) ^ (8 * bs.length)

/-- Whether `v` fits in `n` bytes as a signed two's-complement integer; this
is the bound `int.to_bytes(n, signed = True)` enforces before raising
`OverflowError`. Width `0` holds only the value `0`. -/
def fitsSigned (v : Int) (n : Nat) : Bool :=
  match n with
  | 0 => v == 0
  | _ + 1 => decide (-(2 : Int) ^ (8 * n - 1) ≤ v) && decide (v < (2 : Int) ^ (8 * n - 1))

/-- `Stack.serialize`: integers become exactly `size` two's-complement bytes
(`OverflowError` when the value does not fit); strings become their ASCII
bytes (`UnicodeEncodeError` on a code point ≥ 128) padded with zero bytes up
to `size` (an over-long string yields a list longer than `size`, caught by
the caller); floats have no `encode` attribute (`AttributeError`). -/
def serialize (v : Value) (size : Nat) : Except Err (List Nat) :=
  match v with
  | .int i =>
      if fitsSigned i size then
        .ok (natToBytesBE size ((i.emod ((2 : Int) ^ (8 * size))).toNat))
      else .error .overflowErr
  | .str s =>
      if s.all (fun c => c < 128) then .ok (s ++ List.replicate (size - s.length) 0)
      else .error .unicodeErr
  | .float => .error .attrErr

/-- The scanning loop of `Stack.allocate`: `i` is the enumeration index,
`count` the length of the current run of free cells, `sidx` the Python
`start_index` variable. Returns the start index of the chosen window; the
caller marks the cells. -/
def allocScan : List Cell → Nat → Nat → Nat → Nat → Option Nat
  | [], _, _, _, _ => none
  | c :: rest, size, i, count, sidx =>
    if c = Cell.free then
      let sidx' := if count = 0 then i else sidx
      if count + 1 = size then some sidx'
      else allocScan rest size (i + 1) (count + 1) sidx'
    else allocScan rest size (i + 1) 0 sidx

/-- `Stack.allocate`: first-fit scan; on success the chosen cells are
overwritten with the `ALLOCATED` marker
(`store[start_index:start_index + size] = [ALLOCATED] * size`) and an
`Allocation(start, start + size - 1, size)` is returned; otherwise
`MemoryOverflow` is raised. -/
def allocate (stk : StackSt) (size : Nat) : Except Err (Allocation × StackSt) :=
  match allocScan stk.store size 0 0 0 with
  | some st =>
      .ok (⟨st, st + size - 1, size⟩,
        { stk with store :=
            pySliceAssign stk.store st (st + size) (List.replicate size Cell.allocMark) })
  | none => .error .memoryOverflow

/-- `Stack.write`: serialize, reject a serialization longer than the
allocation (`MemoryOverflow`), apply the defensive bound check
`allocation.end - 1 > self.size` (also `MemoryOverflow`), then overwrite
`store[start:end + 1]`. -/
def write (stk : StackSt) (a : Allocation) (v : Value) : Except Err StackSt :=
  match serialize v a.size with
  | .error e => .error e
  | .ok sv =>
      if sv.length > a.size then .error .memoryOverflow
      else if a.end_ - 1 > stk.size then .error .memoryOverflow
      else .ok { stk with store := pySliceAssign stk.store a.start (a.end_ + 1) (sv.map Cell.byte) }

/-- Python truthiness of a cell, used by the `STRING` branch of `Stack.get`
(`v for v in value if v`): `None` and the byte `0` are falsy; a nonzero byte
and the nonempty `ALLOCATED` marker `b"\x00"` are truthy. -/
def pyTruthy : Cell → Bool
  | .free => false
  | .allocMark => true
  | .byte 0 => false
  | .byte _ => true

/-- Convert a cell list to its byte values, as Python `bytes(...)` does:
fails (builtin `TypeError`) if any element is not an integer — in
particular on the `ALLOCATED` marker, which is a `bytes` object. -/
def cellsToBytes : List Cell → Option (List Nat)
  | [] => some []
  | .byte b :: rest => (cellsToBytes rest).map (fun bs => b :: bs)
  | _ => none

/-- The body of `Stack.get` acting on the extracted slice (the Python local
`value`): raise `NullDataInOperation` if any cell is `None`; then
reinterpret per the cast. `INTEGER` reads the full fixed width as a signed
two's-complement integer; `STRING` first filters out falsy cells (all zero
bytes, wherever they occur) and decodes as ASCII (`UnicodeDecodeError` on a
byte ≥ 128); `NOTSET` raises a plain `StackError`. -/
def getCast (value : List Cell) (cast : DataType) : Except Err Value :=
  if value.any (fun c => c = Cell.free) then .error .nullData
  else
    match cast with
    | .INTEGER =>
        match cellsToBytes value with
        | some bs => .ok (.int (bytesToIntSigned bs))
        | none => .error .typeErr
    | .STRING =>
        match cellsToBytes (value.filter pyTruthy) with
        | some bs =>
            if bs.all (fun c => c < 128) then .ok (.str bs) else .error .unicodeErr
        | none => .error .typeErr
    | .NOTSET => .error .notsetGet

/-- `Stack.get`: extract the slice `store[start:end + 1]` and reinterpret
it per the cast. -/
def Stack.get (stk : StackSt) (a : Allocation) (cast : DataType) : Except Err Value :=
  getCast ((stk.store.drop a.start).take (a.end_ + 1 - a.start)) cast

/-- `Stack.drop`: reset the range to `None`
(`store[start:end + 1] = [None] * size`). -/
def dropRange (stk : StackSt) (a : Allocation) : StackSt :=
  { stk with store := pySliceAssign stk.store a.start (a.end_ + 1) (List.replicate a.size Cell.free) }

/-- `Stack.allocate_variable`: a `ValueError` (a builtin, not a
`StackError`) if the name is already bound, else bind the fresh allocation
with datatype `NOTSET`. -/
def allocate_variable (stk : StackSt) (name : String) (size : Nat) : Except Err StackSt :=
  if (lookupVar stk name).isSome then .error .valueErr
  else
    match allocate stk size with
    | .error e => .error e
    | .ok (a, stk') => .ok { stk' with vars := stk'.vars ++ [(name, .register a .NOTSET)] }

/-- `Stack.write_variable`. Python mutates the register's datatype before
delegating to `write`; if `write` then raises, that mutation persists, so
errors carry the stack state as of the raise. -/
def write_variable (stk : StackSt) (name : String) (value : Value) (reserved : Bool) :
    Except (Err × StackSt) StackSt :=
  match lookupVar stk name with
  | none => .error (.notAllocated, stk)
  | some (.reservedRegister _) =>
      if reserved then .ok (setVar stk name (.reservedRegister value))
      else .error (.reservedName, stk)
  | some (.register a _) =>
      let dt : DataType := match value with | .int _ => .INTEGER | _ => .STRING
      let stk' := setVar stk name (.register a dt)
      match write stk' a value with
      | .ok stk2 => .ok stk2
      | .error e => .error (e, stk')

/-- `Stack.get_variable`: reserved registers return their value directly; a
register still `NOTSET` raises `NullDataInOperation`; otherwise delegate to
`get` at the stored datatype. -/
def get_variable (stk : StackSt) (name : String) : Except Err Value :=
  match lookupVar stk name with
  | none => .error .notAllocated
  | some (.reservedRegister v) => .ok v
  | some (.register a dt) =>
      if dt = .NOTSET then .error .nullData else Stack.get stk a dt

/-- `Stack.drop_variable`: fails on unbound names and reserved registers,
else frees the backing range and deletes the binding. -/
def drop_variable (stk : StackSt) (name : String) : Except Err StackSt :=
  match lookupVar stk name with
  | none => .error .notAllocated
  | some (.reservedRegister _) => .error .reservedName
  | some (.register a _) =>
      .ok { (dropRange stk a) with vars := stk.vars.filter (fun pr => pr.1 ≠ name) }

/-- Spec-side predicate, written from the specification's words: the `size`
cells starting at `st` all lie in the arena and are `Free`. The
specification's "run of `Free` cells of length ≥ size" starting earliest is
exactly the least `st` satisfying this. -/
def FreeRunAt (store : List Cell) (st n : Nat) : Prop :=
  st + n ≤ store.length ∧ ∀ j, j < n → store[st + j]? = some Cell.free

instance (store : List Cell) (st n : Nat) : Decidable (FreeRunAt store st n) := by
  unfold FreeRunAt
  exact inferInstance

/-- Disjointness of two allocations' byte ranges. -/
def DisjointA (a b : Allocation) : Prop :=
  a.start + a.size ≤ b.start ∨ b.start + b.size ≤ a.start

instance (a b : Allocation) : Decidable (DisjointA a b) := by
  unfold DisjointA
  exact inferInstance

/-- An arena operation for the allocation-lifetime model: request an
allocation of a given size (`Stack.allocate`), or drop a previously returned
live allocation (`Stack.drop`, as `drop_variable` invokes it on the
allocation bound to a variable). -/
inductive StackOp where
  | allocOp (size : Nat)
  | dropOp (a : Allocation)
deriving DecidableEq, Repr

/-- A stack together with the list of its live (returned and not yet
dropped) allocations, in return order. -/
structure Trace where
  stk : StackSt
  live : List Allocation
deriving DecidableEq, Repr

/-- Apply one arena operation: a failed allocation changes nothing; a drop
of an allocation that is not live changes nothing. -/
def applyOp (t : Trace) : StackOp → Trace
  | .allocOp n =>
      match allocate t.stk n with
      | .ok (a, stk') => ⟨stk', t.live ++ [a]⟩
      | .error _ => t
  | .dropOp a =>
      if a ∈ t.live then ⟨dropRange t.stk a, t.live.erase a⟩ else t

/-- A fresh arena of `n` bytes with no live allocations. -/
def initTrace (n : Nat) : Trace := ⟨initStack n, []⟩

/-- Run a sequence of arena operations from a fresh arena. -/
def runOps (n : Nat) (ops : List StackOp) : Trace :=
  ops.foldl applyOp (initTrace n)

/-! ### Program constructor (`construct.py`)

The constructor is modelled on already-tokenized lines: `process_lines`
(regex tokenization keeping double-quoted strings as single tokens, and
`//` comment stripping) is treated as an upstream collaborator, so each
source line arrives as its list of raw tokens, quotes included. -/

/-- Python `str.isnumeric` restricted to ASCII digit strings (the only
numerals the sources produce). -/
def pyIsNumeric (s : String) : Bool :=
  !s.data.isEmpty && s.data.all Char.isDigit

/-- Python `int(...)` on a digit string. -/
def pyStrToNat (s : String) : Nat :=
  s.data.foldl (fun a c => a * 10 + (c.toNat - 48)) 0

/-- The `Program` dataclass: name metadata, stack byte budget (default
8192), parsed code lines, and the label table. -/
structure Program where
  name : Option String
  byte_size : Nat
  lines : List (List String)
  labels : List (String × Nat)
deriving DecidableEq, Repr

/-- Python dict assignment `labels[k] = v`: overwrite if present, append
otherwise. -/
def updLabel (labels : List (String × Nat)) (k : String) (v : Nat) : List (String × Nat) :=
  if labels.any (fun pr => pr.1 = k) then
    labels.map (fun pr => if pr.1 = k then (k, v) else pr)
  else labels ++ [(k, v)]

/-- Whether the first list is an initial segment of the second. -/
def listStarts : List Char → List Char → Bool
  | [], _ => true
  | _ :: _, [] => false
  | a :: as, b :: bs => a == b && listStarts as bs

/-- The `SIZE` argument regex `(1|2|4|8|16|32|64|128)K` applied with
`re.match` (anchored at the start only): at most one alternative can match,
so ordered search over the alternatives is faithful. -/
def pySizeMatch (s : String) : Option Nat :=
  [1, 2, 4, 8, 16, 32, 64, 128].find? (fun n => listStarts ((toString n).data ++ ['K']) s.data)

/-- `SIZE_SYSTEM_MAPPING`. -/
def sizeSystem (s : String) : Option Nat :=
  if s = "BINARY" ∨ s = "BIN" then some 1024
  else if s = "DECIMAL" ∨ s = "DEC" then some 1000
  else none

/-- Python `s.strip('"')`: drop every leading and trailing double quote. -/
def pyStripQuotes (s : String) : String :=
  String.mk (((s.data.dropWhile (fun c => c == '"')).reverse.dropWhile
    (fun c => c == '"')).reverse)

/-- Python `processed_lines[index - 1]`: for index 0, negative indexing
yields the LAST line. -/
def prevLine (all : List (List String)) (index : Nat) : Option (List String) :=
  if index = 0 then all.getLast? else all[index - 1]?

/-- The numbered-line case of `construct_program` (its `[line_number,
*code_line]` branch): reject a non-numeric head token ("directive inside
the code block"), require the previous line to be `START` unless already
inside the block, require the number to exceed the previous one and be a
multiple of 10, record a `lbl` target, and append the code line. Returns
the updated `(in_code_block, last_line, program)`. -/
def numberedStep (all : List (List String)) (index : Nat) (inBlock : Bool) (lastLine : Nat)
    (prog : Program) (tok : String) (code_line : List String) :
    Except Err (Bool × Nat × Program) :=
  if ¬ pyIsNumeric tok then .error .syntaxErr
  else if prevLine all index ≠ some ["START"] ∧ ¬ inBlock then .error .syntaxErr
  else if pyStrToNat tok ≤ lastLine ∨ pyStrToNat tok % 10 ≠ 0 then .error .syntaxErr
  else
    .ok (true, pyStrToNat tok,
      { prog with
          labels := (match code_line with
            | ["lbl", label_name] => updLabel prog.labels label_name prog.lines.length
            | _ => prog.labels),
          lines := prog.lines ++ [code_line] })

/-- One iteration of the `construct_program` loop on the line `l`
(`processed_lines[index]`), returning the updated
`(in_code_block, last_line, program)` state. Match-case order and guard
fallthrough follow the Python `match`: a guarded directive case whose
`not in_code_block` guard fails falls through to the numbered-line case
(where its non-numeric head token is rejected), and an empty token list
hits the final catch-all `Exception`. -/
def constructStep (all : List (List String)) (index : Nat) (inBlock : Bool)
    (lastLine : Nat) (prog : Program) (l : List String) :
    Except Err (Bool × Nat × Program) :=
  match l with
  | ["START"] =>
      if inBlock then numberedStep all index inBlock lastLine prog "START" []
      else .ok (inBlock, lastLine, prog)
  | ["PROGRAM", program_name] =>
      if inBlock then numberedStep all index inBlock lastLine prog "PROGRAM" [program_name]
      else .ok (inBlock, lastLine, { prog with name := some (pyStripQuotes program_name) })
  | ["SIZE", size, system] =>
      if inBlock then numberedStep all index inBlock lastLine prog "SIZE" [size, system]
      else
        match pySizeMatch size with
        | none => .error .syntaxErr
        | some k =>
            match sizeSystem system with
            | none => .error .syntaxErr
            | some mult => .ok (inBlock, lastLine, { prog with byte_size := k * mult })
  | ["."] =>
      if ¬ inBlock then .error .syntaxErr
      else if index ≠ all.length - 1 then .error .syntaxErr
      else .ok (inBlock, lastLine, prog)
  | tok :: code_line => numberedStep all index inBlock lastLine prog tok code_line
  | [] => .error .genericExc

/-- The iteration of `construct_program` over the processed lines. `all` is
the full line list (needed for the previous-line and last-line checks),
`index` the current position. -/
def constructAux (all : List (List String)) :
    List (List String) → Nat → Bool → Nat → Program → Except Err Program
  | [], _, _, _, prog => .ok prog
  | l :: rest, index, inBlock, lastLine, prog =>
      match constructStep all index inBlock lastLine prog l with
      | .error e => .error e
      | .ok (ib, ll, pg) => constructAux all rest (index + 1) ib ll pg

/-- `construct_program` over tokenized lines: default budget 8192, empty
metadata, iterate from index 0 outside any code block. -/
def construct_program (lines : List (List String)) : Except Err Program :=
  constructAux lines lines 0 false 0 ⟨none, 8192, [], []⟩

/-- The line number carried by a tokenized line: its first token when
numeric (exactly the lines the numbered-line check examines). -/
def lineNum (l : List String) : Option Nat :=
  match l with
  | tok :: _ => if pyIsNumeric tok then some (pyStrToNat tok) else none
  | [] => none

/-- The numbers of the numbered lines of a program source, in order. -/
def numberedNums (lines : List (List String)) : List Nat :=
  lines.filterMap lineNum

/-- Well-formedness of one live allocation against a stack: positive size,
the `end == start + size - 1` invariant (phrased without truncated
subtraction), in-bounds, and no cell of its range is `Free`. -/
def AllocOk (stk : StackSt) (a : Allocation) : Prop :=
  1 ≤ a.size ∧ a.end_ + 1 = a.start + a.size ∧ a.start + a.size ≤ stk.store.length ∧
    ∀ j, a.start ≤ j → j < a.start + a.size → stk.store[j]? ≠ some Cell.free

/-- Invariant of the allocation-lifetime model: every live allocation is
well formed and live allocations are pairwise disjoint. -/
def TraceInv (t : Trace) : Prop :=
  (∀ a ∈ t.live, AllocOk t.stk a) ∧ t.live.Pairwise DisjointA

/-- Example arena used by witnesses: free runs of lengths 3 and 5 at
increasing offsets. -/
def exArena : List Cell :=
  [.allocMark, .free, .free, .free, .allocMark, .free, .free, .free, .free, .free]

/-! ### Execution engine (`__main__.py`)

The engine executes the constructed token lines directly, as the Python
`match` over `program.lines[current_line]` does. `print` output and the
clear-screen escape are dropped (console output is an external
collaborator); stdin is an explicit list of input lines. -/

/-- A `\w` word character of the `\&(\w+)` varTok regex. -/
def isWordChar (c : Char) : Bool :=
  c.isAlphanum || c = '_'

/-- `handle_variable` with the default regex `\&(\w+)` (`re.match`, so only
anchored at the start): an `&` followed by at least one word character;
the group is the maximal word-character run. -/
def handle_variable (varTok : String) : Except Err String :=
  match varTok.data with
  | '&' :: rest =>
      if (rest.takeWhile isWordChar).isEmpty then .error .syntaxErr
      else .ok (String.mk (rest.takeWhile isWordChar))
  | _ => .error .syntaxErr

/-- `handle_variable` with `allocation_regex = :\[(\d+)\]` followed by the
caller's `int(...)`: a `:[`, at least one digit, `]`. -/
def handle_allocation (allocation : String) : Except Err Nat :=
  match allocation.data with
  | ':' :: '[' :: rest =>
      if (rest.takeWhile Char.isDigit).isEmpty then .error .syntaxErr
      else
        match rest.drop (rest.takeWhile Char.isDigit).length with
        | ']' :: _ =>
            .ok ((rest.takeWhile Char.isDigit).foldl (fun a c => a * 10 + (c.toNat - 48)) 0)
        | _ => .error .syntaxErr
  | _ => .error .syntaxErr

/-- Code points of a Lean string, the `Value.str` representation. -/
def pyStrVal (s : String) : List Nat :=
  s.data.map Char.toNat

/-- `process_value`: a `&`-token dereferences a varTok (empty remainder
is a syntax error); a numeric token is an integer literal; a double-quoted
token of length > 1 is a text literal whose body is the token stripped of
its surrounding quotes; anything else is a syntax error (an empty token
would raise `IndexError` on `value[0]`). The `$name` substitution pass and
the escape-decoding pass of the source are modelled as the identity, which
is exact for literal bodies containing neither `$` nor a backslash — the
only bodies this development evaluates. -/
def process_value (stk : StackSt) (value : String) : Except Err Value :=
  match value.data with
  | [] => .error .indexErr
  | c :: rest =>
      if c = '&' then
        if rest.isEmpty then .error .syntaxErr else get_variable stk (String.mk rest)
      else if pyIsNumeric value then .ok (.int (pyStrToNat value))
      else if c = '"' ∧ value.data.getLast? = some '"' ∧ 1 < value.data.length then
        .ok (.str (pyStrVal (pyStripQuotes value)))
      else .error .syntaxErr

/-- Python `type(a) is type(b)` for the runtime values in play. -/
def sameType : Value → Value → Bool
  | .int _, .int _ => true
  | .str _, .str _ => true
  | .float, .float => true
  | _, _ => false

/-- Lexicographic order on code-point lists: Python `str < str`. -/
def listLexLt : List Nat → List Nat → Bool
  | [], [] => false
  | [], _ :: _ => true
  | _ :: _, [] => false
  | a :: as, b :: bs => if a < b then true else if b < a then false else listLexLt as bs

/-- Python `a > b` for same-type operands (the only way the engine's
comparison chain can reach an ordering; differently-typed and float
operands never get here because the equality/inequality checks above the
ordering always resolve first). -/
def pyGtB : Value → Value → Bool
  | .int x, .int y => decide (y < x)
  | .str x, .str y => listLexLt y x
  | _, _ => false

/-- Python `a < b`, same proviso as `pyGtB`. -/
def pyLtB : Value → Value → Bool
  | .int x, .int y => decide (x < y)
  | .str x, .str y => listLexLt x y
  | _, _ => false

/-- Python `a >= b`, same proviso as `pyGtB`. -/
def pyGeB (a b : Value) : Bool :=
  pyGtB a b || a == b

/-- Python `a <= b`, same proviso as `pyGtB`. -/
def pyLeB (a b : Value) : Bool :=
  pyLtB a b || a == b

/-- The `operator` module calls of the arithmetic instructions. `div` maps
to `operator.truediv`, whose result on integers is a float; `pow` with a
negative exponent is a float as well (and `0 ** negative` raises
`ZeroDivisionError`). Mixed int/text operands raise `TypeError`, except
that `add` concatenates two texts and `mul` repeats a text by an integer,
as in Python. Float operands cannot occur (no instruction can store one),
so they are mapped to `TypeError`. -/
def pyArith (op : String) (a b : Value) : Except Err Value :=
  match op with
  | "add" =>
      match a, b with
      | .int x, .int y => .ok (.int (x + y))
      | .str x, .str y => .ok (.str (x ++ y))
      | _, _ => .error .typeErr
  | "sub" =>
      match a, b with
      | .int x, .int y => .ok (.int (x - y))
      | _, _ => .error .typeErr
  | "mul" =>
      match a, b with
      | .int x, .int y => .ok (.int (x * y))
      | .str x, .int y => .ok (.str (List.flatten (List.replicate y.toNat x)))
      | .int x, .str y => .ok (.str (List.flatten (List.replicate x.toNat y)))
      | _, _ => .error .typeErr
  | "div" =>
      match a, b with
      | .int _, .int y => if y = 0 then .error .zeroDivErr else .ok .float
      | _, _ => .error .typeErr
  | "pow" =>
      match a, b with
      | .int x, .int y =>
          if 0 ≤ y then .ok (.int (x ^ y.toNat))
          else if x = 0 then .error .zeroDivErr else .ok .float
      | _, _ => .error .typeErr
  | _ => .error .genericExc

/-- Decimal digit codes of a natural number. -/
def natDigits (n : Nat) : List Nat :=
  if n < 10 then [48 + n] else natDigits (n / 10) ++ [48 + n % 10]
termination_by n
decreasing_by
  exact Nat.div_lt_self (by omega) (by omega)

/-- Python `str(i)` for an integer: decimal digits with a leading `-` for
negatives. -/
def intToCodes (i : Int) : List Nat :=
  if i < 0 then 45 :: natDigits (-i).toNat else natDigits i.toNat

/-- Python `int(...)` applied by `cst ... INTEGER`: identity on integers;
a text parses as an optional `-` sign followed by digits (`ValueError`
otherwise; the whitespace stripping and `+` sign Python also accepts are
not exercised here). Floats cannot occur. -/
def pyIntCast (v : Value) : Except Err Value :=
  match v with
  | .int i => .ok (.int i)
  | .str (45 :: ds) =>
      if ds ≠ [] ∧ ds.all (fun c => 48 ≤ c ∧ c ≤ 57) then
        .ok (.int (-(ds.foldl (fun a c => a * 10 + ((c : Int) - 48)) 0)))
      else .error .valueErr
  | .str ds =>
      if ds ≠ [] ∧ ds.all (fun c => 48 ≤ c ∧ c ≤ 57) then
        .ok (.int (ds.foldl (fun a c => a * 10 + ((c : Int) - 48)) 0))
      else .error .valueErr
  | .float => .error .typeErr

/-- Python `str(...)` applied by `cst ... STRING`: decimal text for an
integer, identity on text. Floats cannot occur. -/
def pyStrCast (v : Value) : Value :=
  match v with
  | .int i => .str (intToCodes i)
  | .str s => .str s
  | .float => .float

/-- Result of attempting one instruction: completed (with the possibly
updated comparison result and remaining inputs), took a jump (the Python
`continue` path), or raised (the error, the stack as of the raise — Python
mutations before a raise persist — and the remaining inputs). -/
inductive ExecRes where
  | ok (stk : StackSt) (cmpRes : Option String) (inputs : List (List Nat))
  | jumped (target : Nat) (stk : StackSt)
  | err (e : Err) (stk : StackSt) (inputs : List (List Nat))
deriving DecidableEq, Repr

/-- Whether the run is still going, finished normally (instructions
exhausted), or aborted by a propagated `StackError`. -/
inductive Status where
  | running
  | halted
  | fatalErr (e : Err)
deriving DecidableEq, Repr

/-- The engine state of `process_file`: program counter, the
`comparison_result` local (the raw tag string `cmp` stores), the stack,
the pending stdin lines, and the run status. -/
structure EngState where
  line : Nat
  cmpRes : Option String
  stk : StackSt
  inputs : List (List Nat)
  status : Status
deriving DecidableEq, Repr

/-- The arithmetic cases (`add | sub | mul | div | pow <a> <b> > &<name>`),
argument evaluation in Python order: target varTok token first, then the
two operands, then the operator, then the write. -/
def arithCase (s : EngState) (op num1 num2 varTok : String) : ExecRes :=
  match handle_variable varTok with
  | .error e => .err e s.stk s.inputs
  | .ok nm =>
      match process_value s.stk num1 with
      | .error e => .err e s.stk s.inputs
      | .ok v1 =>
          match process_value s.stk num2 with
          | .error e => .err e s.stk s.inputs
          | .ok v2 =>
              match pyArith op v1 v2 with
              | .error e => .err e s.stk s.inputs
              | .ok v =>
                  match write_variable s.stk nm v false with
                  | .ok stk' => .ok stk' s.cmpRes s.inputs
                  | .error (e, stkE) => .err e stkE s.inputs

/-- The `cst` case: read the varTok, convert, write back. -/
def cstCase (s : EngState) (varTok cast_type : String) : ExecRes :=
  match handle_variable varTok with
  | .error e => .err e s.stk s.inputs
  | .ok nm =>
      match get_variable s.stk nm with
      | .error e => .err e s.stk s.inputs
      | .ok v =>
          match (if cast_type = "INTEGER" then pyIntCast v else .ok (pyStrCast v)) with
          | .error e => .err e s.stk s.inputs
          | .ok v2 =>
              match write_variable s.stk nm v2 false with
              | .ok stk' => .ok stk' s.cmpRes s.inputs
              | .error (e, stkE) => .err e stkE s.inputs

/-- The jump case: taken exactly when the stored comparison tag equals the
opcode token; a missing label is a `KeyError` on the label dict. -/
def jumpCase (p : Program) (s : EngState) (jump_type label : String) : ExecRes :=
  if s.cmpRes = some jump_type then
    match p.labels.lookup label with
    | some idx => .jumped idx s.stk
    | none => .err .keyErr s.stk s.inputs
  else .ok s.stk s.cmpRes s.inputs

/-- The `out` case: resolve and print (printing is external). -/
def outCase (s : EngState) (message : String) : ExecRes :=
  match process_value s.stk message with
  | .ok _ => .ok s.stk s.cmpRes s.inputs
  | .error e => .err e s.stk s.inputs

/-- The `alc` case: parse the name and the size, then bind. -/
def alcCase (s : EngState) (varTok allocation : String) : ExecRes :=
  match handle_variable varTok with
  | .error e => .err e s.stk s.inputs
  | .ok nm =>
      match handle_allocation allocation with
      | .error e => .err e s.stk s.inputs
      | .ok sz =>
          match allocate_variable s.stk nm sz with
          | .ok stk' => .ok stk' s.cmpRes s.inputs
          | .error e => .err e s.stk s.inputs

/-- The `inp` case: the prompt must resolve to text, then one line is read
from the input collaborator and written to the variable. -/
def inpCase (s : EngState) (prompt varTok : String) : ExecRes :=
  match process_value s.stk prompt with
  | .error e => .err e s.stk s.inputs
  | .ok v =>
      match v with
      | .str _ =>
          match handle_variable varTok with
          | .error e => .err e s.stk s.inputs
          | .ok nm =>
              match s.inputs with
              | [] => .err .eofErr s.stk s.inputs
              | line :: restIn =>
                  match write_variable s.stk nm (.str line) false with
                  | .ok stk' => .ok stk' s.cmpRes restIn
                  | .error (e, stkE) => .err e stkE restIn
      | _ => .err .valueErr s.stk s.inputs

/-- The `cmp` case: the equality and inequality tests come first; since one
of them always holds, the type check and the ordering branches below them
are unreachable, and `comparison_result` can only ever become `"jeq"` or
`"jne"` — while the jump opcodes include `"jnq"`, `"jgt"`, `"jlt"`,
`"jge"`, `"jle"`. -/
def cmpCase (s : EngState) (variable1 variable2 : String) : ExecRes :=
  match process_value s.stk variable1 with
  | .error e => .err e s.stk s.inputs
  | .ok w1 =>
      match process_value s.stk variable2 with
      | .error e => .err e s.stk s.inputs
      | .ok w2 =>
          if w1 = w2 then .ok s.stk (some "jeq") s.inputs
          else if w1 ≠ w2 then .ok s.stk (some "jne") s.inputs
          else if ¬ sameType w1 w2 then .err .valueErr s.stk s.inputs
          else if pyGtB w1 w2 then .ok s.stk (some "jgt") s.inputs
          else if pyLtB w1 w2 then .ok s.stk (some "jlt") s.inputs
          else if pyGeB w1 w2 then .ok s.stk (some "jge") s.inputs
          else if pyLeB w1 w2 then .ok s.stk (some "jle") s.inputs
          else .ok s.stk s.cmpRes s.inputs

/-- The `drp` case. -/
def drpCase (s : EngState) (varTok : String) : ExecRes :=
  match handle_variable varTok with
  | .error e => .err e s.stk s.inputs
  | .ok nm =>
      match drop_variable s.stk nm with
      | .ok stk' => .ok stk' s.cmpRes s.inputs
      | .error e => .err e s.stk s.inputs

/-- The `set` case. -/
def setCase (s : EngState) (varTok value : String) : ExecRes :=
  match handle_variable varTok with
  | .error e => .err e s.stk s.inputs
  | .ok nm =>
      match process_value s.stk value with
      | .error e => .err e s.stk s.inputs
      | .ok v =>
          match write_variable s.stk nm v false with
          | .ok stk' => .ok stk' s.cmpRes s.inputs
          | .error (e, stkE) => .err e stkE s.inputs

/-- One instruction dispatch, mirroring the Python `match` case for case.
The Python patterns pair an opcode literal with an operand arity; no two
patterns of the same arity share an opcode, so grouping the dispatch by
token count with the opcode tests in source order is exactly the Python
match semantics, including the fallthrough of every unmatched shape to the
catch-all `SyntaxError`. -/
def execInstr (p : Program) (s : EngState) (toks : List String) : ExecRes :=
  match toks with
  | [t1] =>
      if t1 = "cls" then .ok s.stk s.cmpRes s.inputs
      else .err .syntaxErr s.stk s.inputs
  | [t1, t2] =>
      if t1 = "out" then outCase s t2
      else if t1 = "lbl" then .ok s.stk s.cmpRes s.inputs
      else if t1 = "jeq" ∨ t1 = "jnq" ∨ t1 = "jgt" ∨ t1 = "jlt" ∨ t1 = "jge" ∨ t1 = "jle" then
        jumpCase p s t1 t2
      else if t1 = "drp" then drpCase s t2
      else .err .syntaxErr s.stk s.inputs
  | [t1, t2, t3] =>
      if t1 = "alc" then alcCase s t2 t3
      else if t1 = "cst" ∧ (t3 = "STRING" ∨ t3 = "INTEGER") then cstCase s t2 t3
      else if t1 = "cmp" then cmpCase s t2 t3
      else if t1 = "set" then setCase s t2 t3
      else .err .syntaxErr s.stk s.inputs
  | [t1, t2, t3, t4] =>
      if t1 = "inp" ∧ t3 = ">" then inpCase s t2 t4
      else .err .syntaxErr s.stk s.inputs
  | [t1, t2, t3, t4, t5] =>
      if (t1 = "add" ∨ t1 = "sub" ∨ t1 = "mul" ∨ t1 = "div" ∨ t1 = "pow") ∧ t4 = ">" then
        arithCase s t1 t2 t3 t5
      else .err .syntaxErr s.stk s.inputs
  | _ => .err .syntaxErr s.stk s.inputs

/-- The engine's post-instruction error-flag write,
`stack.write_variable("slx", code, reserved = True)`. -/
def writeFlag (stk : StackSt) (code : Nat) : Except (Err × StackSt) StackSt :=
  write_variable stk "slx" (.int code) true

/-- One iteration of the `process_file` while loop: stop when the program
counter leaves the program; otherwise attempt the instruction. A taken
jump `continue`s — skipping both the error-flag write and the increment. A
raised `StackError` is re-raised (the run aborts); any other exception is
recorded by writing `1` to the error flag; success writes `0`; then the
counter advances. (A failure of the flag write itself would escape the
loop; it is modelled as aborting, and is impossible in reachable states.) -/
def step (p : Program) (s : EngState) : EngState :=
  match s.status with
  | .halted => s
  | .fatalErr _ => s
  | .running =>
      match p.lines[s.line]? with
      | none => { s with status := .halted }
      | some toks =>
          match execInstr p s toks with
          | .jumped t stk' => { s with line := t, stk := stk' }
          | .ok stk' cmp2 inp2 =>
              match writeFlag stk' 0 with
              | .ok stk2 =>
                  { line := s.line + 1, cmpRes := cmp2, stk := stk2, inputs := inp2,
                    status := .running }
              | .error (e, stk2) =>
                  { s with status := .fatalErr e, stk := stk2, cmpRes := cmp2, inputs := inp2 }
          | .err e stk' inp2 =>
              if e.isStackError then
                { s with status := .fatalErr e, stk := stk', inputs := inp2 }
              else
                match writeFlag stk' 1 with
                | .ok stk2 =>
                    { line := s.line + 1, cmpRes := s.cmpRes, stk := stk2, inputs := inp2,
                      status := .running }
                | .error (e2, stk2) =>
                    { s with status := .fatalErr e2, stk := stk2, inputs := inp2 }

/-- `process_file` initialization: fresh stack of the program's byte
budget, program counter 0, comparison result unset. -/
def initEng (p : Program) (inputs : List (List Nat)) : EngState :=
  ⟨0, none, initStack p.byte_size, inputs, .running⟩

/-- Iterate the loop `n` times (the loop exit is absorbed by `step` fixing
halted states). -/
def runSteps (p : Program) : Nat → EngState → EngState
  | 0, s => s
  | n + 1, s => runSteps p n (step p s)

/-- The current value of the error-flag reserved register. -/
def slxOf (s : EngState) : Option Value :=
  match lookupVar s.stk "slx" with
  | some (.reservedRegister v) => some v
  | _ => none

/-- Example program: `cmp 5 3` then `jgt end` (claim C3's scenario). -/
def exCmpJgt : Program :=
  ⟨none, 8, [["cmp", "5", "3"], ["jgt", "end"], ["cls"], ["lbl", "end"]], [("end", 3)]⟩

/-- Example program: `cmp` on an integer and a text literal, then `jgt`
(claim C7's scenario). -/
def exCmpMixed : Program :=
  ⟨none, 8, [["cmp", "1", "\"a\""], ["jgt", "end"], ["lbl", "end"]], [("end", 2)]⟩

/-- Example program: a successful `cmp 1 1`, a failing `out abc` (leaving
the error flag at 1), then the taken `jeq end` (claim C8's scenario). -/
def exTakenJump : Program :=
  ⟨none, 8, [["cmp", "1", "1"], ["out", "abc"], ["jeq", "end"], ["lbl", "end"]], [("end", 3)]⟩

/-- Example program: allocate one byte, then write the integer 200 into it
(claim C6's scenario, integer overflow). -/
def exIntOverflow : Program :=
  ⟨none, 8, [["alc", "&x", ":[1]"], ["set", "&x", "200"]], []⟩

/-- Example program: allocate one byte, then write the two-byte text "ab"
into it (claim C6's scenario, string overflow). -/
def exStrOverflow : Program :=
  ⟨none, 8, [["alc", "&x", ":[1]"], ["set", "&x", "\"ab\""]], []⟩

/-- Example program: `cmp 1 2` (unequal), then `jnq end` (claim C10's
scenario). -/
def exJnq : Program :=
  ⟨none, 8, [["cmp", "1", "2"], ["jnq", "end"], ["cls"], ["lbl", "end"]], [("end", 3)]⟩

/-! ### Helper lemmas: slices and byte lists -/

theorem pySliceAssign_length (store : List Cell) (lo : Nat) (vals : List Cell)
    (h : lo + vals.length ≤ store.length) :
    (pySliceAssign store lo (lo + vals.length) vals).length = store.length := by
  unfold pySliceAssign
  simp only [List.length_append, List.length_take, List.length_drop]
  omega

theorem pySliceAssign_getElem? (store : List Cell) (lo : Nat) (vals : List Cell) (j : Nat)
    (h : lo + vals.length ≤ store.length) :
    (pySliceAssign store lo (lo + vals.length) vals)[j]? =
      if lo ≤ j ∧ j < lo + vals.length then vals[j - lo]? else store[j]? := by
  unfold pySliceAssign
  have htake : (store.take lo).length = lo := List.length_take_of_le (by omega)
  rw [List.append_assoc, List.getElem?_append, htake]
  by_cases h1 : j < lo
  · rw [if_pos h1, if_neg (by omega), List.getElem?_take, if_pos h1]
  · rw [if_neg h1, List.getElem?_append]
    by_cases h2 : j < lo + vals.length
    · rw [if_pos (by omega), if_pos (by omega)]
    · rw [if_neg (by omega), if_neg (by omega), List.getElem?_drop]
      congr 1
      omega

theorem drop_append_of_length (l1 l2 : List Cell) (n : Nat) (h : l1.length = n) :
    (l1 ++ l2).drop n = l2 := by
  subst h
  exact List.drop_left l1 l2

theorem pySliceAssign_window (store : List Cell) (lo : Nat) (vals : List Cell)
    (h : lo ≤ store.length) :
    ((pySliceAssign store lo (lo + vals.length) vals).drop lo).take vals.length = vals := by
  unfold pySliceAssign
  have htake : (store.take lo).length = lo := List.length_take_of_le h
  rw [List.append_assoc, drop_append_of_length _ _ _ htake, List.take_left]

theorem cellsToBytes_map_byte (bs : List Nat) : cellsToBytes (bs.map Cell.byte) = some bs := by
  induction bs with
  | nil => rfl
  | cons b rest ih => simp [cellsToBytes, ih]

theorem map_byte_no_free (bs : List Nat) :
    (bs.map Cell.byte).any (fun c => c = Cell.free) = false := by
  induction bs with
  | nil => rfl
  | cons b rest ih => simp_all [List.any_cons]

theorem natToBytesBE_length (n u : Nat) : (natToBytesBE n u).length = n := by
  induction n generalizing u with
  | zero => rfl
  | succ m ih => simp [natToBytesBE, ih]

theorem bytesToNatBE_append_last (l : List Nat) (b : Nat) :
    bytesToNatBE (l ++ [b]) = bytesToNatBE l * 256 + b := by
  unfold bytesToNatBE
  rw [List.foldl_append]
  rfl

theorem bytesToNatBE_natToBytesBE (n u : Nat) :
    bytesToNatBE (natToBytesBE n u) = u % 256 ^ n := by
  induction n generalizing u with
  | zero => simp [natToBytesBE, bytesToNatBE, Nat.mod_one]
  | succ m ih =>
      rw [natToBytesBE, bytesToNatBE_append_last, ih]
      rw [pow_succ, Nat.mul_comm (256 ^ m) 256, Nat.mod_mul]
      ring

/-! ### Helper lemmas: the allocator scan -/

theorem allocScan_some_size_pos (size : Nat) :
    ∀ (rest : List Cell) (i count sidx st : Nat),
      allocScan rest size i count sidx = some st → 1 ≤ size := by
  intro rest
  induction rest with
  | nil => intro i count sidx st h; simp [allocScan] at h
  | cons c rest ih =>
      intro i count sidx st h
      simp only [allocScan] at h
      by_cases hc : c = Cell.free
      · rw [if_pos hc] at h
        by_cases hsz : count + 1 = size
        · omega
        · rw [if_neg hsz] at h
          exact ih _ _ _ _ h
      · rw [if_neg hc] at h
        exact ih _ _ _ _ h

theorem allocScan_some_spec (full : List Cell) (size : Nat) :
    ∀ (rest : List Cell) (i count sidx st : Nat),
      full.drop i = rest →
      count ≤ i →
      count < size →
      (∀ j, i - count ≤ j → j < i → full[j]? = some Cell.free) →
      (∀ u, u < i - count → ¬ FreeRunAt full u size) →
      (0 < count → sidx = i - count) →
      allocScan rest size i count sidx = some st →
      FreeRunAt full st size ∧ ∀ u, u < st → ¬ FreeRunAt full u size := by
  intro rest
  induction rest with
  | nil =>
      intro i count sidx st _ _ _ _ _ _ hscan
      simp [allocScan] at hscan
  | cons c rest ih =>
      intro i count sidx st hdrop hci hcs hrun hmin hsidx hscan
      have hi : full[i]? = some c := by
        have h0 : (full.drop i)[0]? = some c := by rw [hdrop]; simp
        rwa [List.getElem?_drop, Nat.add_zero] at h0
      have hilen : i < full.length := (List.getElem?_eq_some.mp hi).1
      have hdrop' : full.drop (i + 1) = rest := by
        have h1 := List.drop_drop 1 i full
        rw [← h1, hdrop]
        rfl
      simp only [allocScan] at hscan
      by_cases hc : c = Cell.free
      · rw [if_pos hc] at hscan
        have hsidx' : (if count = 0 then i else sidx) = i - count := by
          by_cases h0 : count = 0
          · rw [if_pos h0]; omega
          · rw [if_neg h0, hsidx (by omega)]
        rw [hsidx'] at hscan
        by_cases hsz : count + 1 = size
        · rw [if_pos hsz] at hscan
          have hst : st = i - count := by
            injection hscan with h
            omega
          subst hst
          refine ⟨⟨by omega, ?_⟩, fun u hu => hmin u hu⟩
          intro j hj
          by_cases hjc : j < count
          · exact hrun (i - count + j) (by omega) (by omega)
          · have hj' : j = count := by omega
            have heq : i - count + count = i := by omega
            rw [hj', heq, hi, hc]
        · rw [if_neg hsz] at hscan
          refine ih (i + 1) (count + 1) (i - count) st hdrop' (by omega) (by omega) ?_ ?_ ?_ hscan
          · intro j h1 h2
            by_cases hji : j < i
            · exact hrun j (by omega) hji
            · have : j = i := by omega
              rw [this, hi, hc]
          · intro u hu
            exact hmin u (by omega)
          · intro _
            omega
      · rw [if_neg hc] at hscan
        refine ih (i + 1) 0 sidx st hdrop' (by omega) (by omega) ?_ ?_ ?_ hscan
        · intro j h1 h2
          omega
        · intro u hu
          by_cases hcase : u < i - count
          · exact hmin u hcase
          · intro hfr
            obtain ⟨hbnd, hall⟩ := hfr
            have hcsz : i - u < size := by omega
            have := hall (i - u) hcsz
            have heq : u + (i - u) = i := by omega
            rw [heq, hi] at this
            exact hc (Option.some.inj this)
        · intro h0
          omega

theorem allocScan_none_spec (full : List Cell) (size : Nat) :
    ∀ (rest : List Cell) (i count sidx : Nat),
      full.drop i = rest →
      count ≤ i →
      count < size →
      (∀ u, u < i - count → ¬ FreeRunAt full u size) →
      allocScan rest size i count sidx = none →
      ∀ u, ¬ FreeRunAt full u size := by
  intro rest
  induction rest with
  | nil =>
      intro i count sidx hdrop hci hcs hmin _ u
      have hlen : full.length ≤ i := by
        by_contra hlt
        have : (full.drop i).length = full.length - i := List.length_drop i full
        rw [hdrop] at this
        simp at this
        omega
      by_cases hcase : u < i - count
      · exact hmin u hcase
      · intro hfr
        obtain ⟨hbnd, _⟩ := hfr
        omega
  | cons c rest ih =>
      intro i count sidx hdrop hci hcs hmin hscan
      have hi : full[i]? = some c := by
        have h0 : (full.drop i)[0]? = some c := by rw [hdrop]; simp
        rwa [List.getElem?_drop, Nat.add_zero] at h0
      have hdrop' : full.drop (i + 1) = rest := by
        have h1 := List.drop_drop 1 i full
        rw [← h1, hdrop]
        rfl
      simp only [allocScan] at hscan
      by_cases hc : c = Cell.free
      · rw [if_pos hc] at hscan
        by_cases hsz : count + 1 = size
        · rw [if_pos hsz] at hscan
          exact absurd hscan (by simp)
        · rw [if_neg hsz] at hscan
          refine ih (i + 1) (count + 1) _ hdrop' (by omega) (by omega) ?_ hscan
          intro u hu
          exact hmin u (by omega)
      · rw [if_neg hc] at hscan
        refine ih (i + 1) 0 sidx hdrop' (by omega) (by omega) ?_ hscan
        intro u hu
        by_cases hcase : u < i - count
        · exact hmin u hcase
        · intro hfr
          obtain ⟨hbnd, hall⟩ := hfr
          have hcsz : i - u < size := by omega
          have := hall (i - u) hcsz
          have heq : u + (i - u) = i := by omega
          rw [heq, hi] at this
          exact hc (Option.some.inj this)

theorem allocate_ok_spec (stk : StackSt) (size : Nat) (a : Allocation) (stk' : StackSt)
    (h : allocate stk size = .ok (a, stk')) :
    FreeRunAt stk.store a.start size ∧ (∀ u, u < a.start → ¬ FreeRunAt stk.store u size) ∧
      a.size = size ∧ a.end_ = a.start + size - 1 ∧
      stk'.store =
        pySliceAssign stk.store a.start (a.start + size) (List.replicate size Cell.allocMark) ∧
      stk'.vars = stk.vars ∧ stk'.size = stk.size ∧ 1 ≤ size := by
  unfold allocate at h
  cases hscan : allocScan stk.store size 0 0 0 with
  | none => rw [hscan] at h; exact absurd h (by simp)
  | some st =>
      rw [hscan] at h
      have hpos : 1 ≤ size := allocScan_some_size_pos size _ _ _ _ _ hscan
      have hspec := allocScan_some_spec stk.store size stk.store 0 0 0 st rfl (by omega)
        (by omega) (by omega) (by omega) (by omega) hscan
      injection h with h1
      injection h1 with ha hstk
      subst hstk
      rw [← ha]
      exact ⟨hspec.1, hspec.2, rfl, rfl, rfl, rfl, rfl, hpos⟩

theorem allocate_error_spec (stk : StackSt) (size : Nat) (hsz : 1 ≤ size)
    (h : allocate stk size = .error .memoryOverflow) :
    ∀ u, ¬ FreeRunAt stk.store u size := by
  unfold allocate at h
  cases hscan : allocScan stk.store size 0 0 0 with
  | none =>
      exact allocScan_none_spec stk.store size stk.store 0 0 0 rfl (by omega) (by omega)
        (by omega) hscan
  | some st => rw [hscan] at h; exact absurd h (by simp)

theorem allocate_total (stk : StackSt) (size : Nat) :
    (∃ a stk', allocate stk size = .ok (a, stk')) ∨ allocate stk size = .error .memoryOverflow := by
  unfold allocate
  cases allocScan stk.store size 0 0 0 with
  | none => right; rfl
  | some st => left; exact ⟨_, _, rfl⟩

/-! ### Claim C1: first-fit allocation -/

/-- C1 (amended: requested size ≥ 1). `allocate` returns the
earliest-starting run of `Free` cells of length ≥ `size` — first-fit —
marks exactly those `size` cells with the `Allocated` marker leaving all
other cells and the variable registry untouched, returns
`end == start + size - 1`, and raises the out-of-memory condition exactly
when no sufficiently long free run exists. (For `size = 0` the code
unconditionally raises out-of-memory; see the counterexample.) -/
theorem allocate_first_fit (stk : StackSt) (size : Nat) (hsz : 1 ≤ size) :
    (∀ a stk', allocate stk size = .ok (a, stk') →
        FreeRunAt stk.store a.start size ∧
        (∀ u, u < a.start → ¬ FreeRunAt stk.store u size) ∧
        a.size = size ∧ a.end_ = a.start + size - 1 ∧
        stk'.store =
          pySliceAssign stk.store a.start (a.start + size) (List.replicate size Cell.allocMark) ∧
        stk'.vars = stk.vars) ∧
    (allocate stk size = .error .memoryOverflow ↔ ∀ u, ¬ FreeRunAt stk.store u size) := by
  constructor
  · intro a stk' h
    have hs := allocate_ok_spec stk size a stk' h
    exact ⟨hs.1, hs.2.1, hs.2.2.1, hs.2.2.2.1, hs.2.2.2.2.1, hs.2.2.2.2.2.1⟩
  · constructor
    · exact allocate_error_spec stk size hsz
    · intro hall
      rcases allocate_total stk size with ⟨a, stk', hok⟩ | herr
      · exact absurd (allocate_ok_spec stk size a stk' hok).1 (hall a.start)
      · exact herr

/-- Witness for C1: on the arena with free runs of lengths [3, 5], a
request of size 3 returns offset 1 — the start of the first run — which is
free and earliest. -/
theorem allocate_first_fit_witness :
    FreeRunAt exArena 1 3 ∧ ¬ FreeRunAt exArena 0 3 := by
  have h := (allocate_first_fit ⟨10, [], exArena⟩ 3 (by decide)).1 ⟨1, 3, 3⟩
    ⟨10, [], pySliceAssign exArena 1 4 (List.replicate 3 Cell.allocMark)⟩ (by decide)
  exact ⟨h.1, h.2.1 0 (by decide)⟩

/-- Counterexample for C1 as stated (quantifying over every requested
size): requesting size 0 on a one-cell arena whose single cell is `Free`
raises out-of-memory even though runs of length ≥ 0 exist (both the empty
run and the length-1 run at offset 0 qualify). -/
theorem allocate_size_zero_counterexample :
    allocate ⟨1, [], [Cell.free]⟩ 0 = .error .memoryOverflow ∧
      FreeRunAt [Cell.free] 0 0 ∧ FreeRunAt [Cell.free] 0 1 := by
  refine ⟨by decide, by decide, by decide⟩

/-! ### Claim C4: allocation disjointness invariant -/

theorem disjointA_symm : ∀ {a b : Allocation}, DisjointA a b → DisjointA b a := by
  intro a b h
  unfold DisjointA at h ⊢
  omega

theorem live_nodup (t : Trace) (h : TraceInv t) : t.live.Nodup := by
  refine List.Pairwise.imp_of_mem ?_ h.2
  intro a b ha hb hd
  intro heq
  subst heq
  have h1 := (h.1 a ha).1
  unfold DisjointA at hd
  omega

theorem applyOp_alloc_ok (t : Trace) (n : Nat) (a : Allocation) (stk' : StackSt)
    (h : allocate t.stk n = .ok (a, stk')) :
    applyOp t (.allocOp n) = ⟨stk', t.live ++ [a]⟩ := by
  simp [applyOp, h]

theorem applyOp_alloc_err (t : Trace) (n : Nat) (e : Err)
    (h : allocate t.stk n = .error e) : applyOp t (.allocOp n) = t := by
  simp [applyOp, h]

theorem applyOp_drop_mem (t : Trace) (a : Allocation) (h : a ∈ t.live) :
    applyOp t (.dropOp a) = ⟨dropRange t.stk a, t.live.erase a⟩ := by
  simp [applyOp, h]

theorem applyOp_drop_notmem (t : Trace) (a : Allocation) (h : a ∉ t.live) :
    applyOp t (.dropOp a) = t := by
  simp [applyOp, h]

theorem applyOp_inv (t : Trace) (op : StackOp) (h : TraceInv t) :
    TraceInv (applyOp t op) ∧ (applyOp t op).stk.store.length = t.stk.store.length := by
  obtain ⟨hok, hpw⟩ := h
  cases op with
  | allocOp n =>
      cases halloc : allocate t.stk n with
      | error e => rw [applyOp_alloc_err t n e halloc]; exact ⟨⟨hok, hpw⟩, rfl⟩
      | ok pr =>
          obtain ⟨a, stk'⟩ := pr
          rw [applyOp_alloc_ok t n a stk' halloc]
          obtain ⟨hfree, _, hasz, haend, hstore, _, _, hpos⟩ :=
            allocate_ok_spec t.stk n a stk' halloc
          obtain ⟨hbnd, hcells⟩ := hfree
          have hvlen : (List.replicate n Cell.allocMark).length = n := List.length_replicate n _
          have hlen : stk'.store.length = t.stk.store.length := by
            have h1 := pySliceAssign_length t.stk.store a.start (List.replicate n Cell.allocMark)
              (by rw [hvlen]; omega)
            rw [hvlen] at h1
            rw [hstore, h1]
          have hget : ∀ j, stk'.store[j]? =
              if a.start ≤ j ∧ j < a.start + n then (List.replicate n Cell.allocMark)[j - a.start]?
              else t.stk.store[j]? := by
            intro j
            have h1 := pySliceAssign_getElem? t.stk.store a.start (List.replicate n Cell.allocMark)
              j (by rw [hvlen]; omega)
            rw [hvlen] at h1
            rw [hstore, h1]
          have hdisj : ∀ b ∈ t.live, DisjointA b a := by
            intro b hb
            by_contra hnd
            unfold DisjointA at hnd
            push_neg at hnd
            obtain ⟨hobk, _, hobb, hobc⟩ := hok b hb
            have hja : a.start ≤ max b.start a.start ∧ max b.start a.start < a.start + n := by
              rw [hasz] at hnd
              omega
            have hjb : b.start ≤ max b.start a.start ∧ max b.start a.start < b.start + b.size := by
              rw [hasz] at hnd
              omega
            have h1 := hcells (max b.start a.start - a.start) (by omega)
            have h2 := hobc (max b.start a.start) hjb.1 hjb.2
            rw [show a.start + (max b.start a.start - a.start) = max b.start a.start by omega] at h1
            exact h2 h1
          refine ⟨⟨?_, ?_⟩, hlen⟩
          · intro b hb
            simp only [List.mem_append, List.mem_singleton] at hb
            rcases hb with hb | hb
            · obtain ⟨h1, h2, h3, h4⟩ := hok b hb
              refine ⟨h1, h2, by first | omega | (simp only; omega), ?_⟩
              intro j hj1 hj2
              simp only at hj2 ⊢
              rw [hget j]
              by_cases hcase : a.start ≤ j ∧ j < a.start + n
              · rw [if_pos hcase, List.getElem?_replicate, if_pos (by omega)]
                simp
              · rw [if_neg hcase]
                exact h4 j hj1 hj2
            · subst hb
              refine ⟨by first | omega | (simp only; omega), by first | omega | (simp only; omega), by first | omega | (simp only; omega), ?_⟩
              intro j hj1 hj2
              simp only at hj1 hj2 ⊢
              rw [hget j, if_pos (by omega), List.getElem?_replicate, if_pos (by omega)]
              simp
          · simp only
            rw [List.pairwise_append]
            refine ⟨hpw, by simp, ?_⟩
            intro b hb x hx
            simp only [List.mem_singleton] at hx
            subst hx
            exact hdisj b hb
  | dropOp a =>
      by_cases hmem : a ∈ t.live
      · rw [applyOp_drop_mem t a hmem]
        obtain ⟨hak, haend, habnd, _⟩ := hok a hmem
        have hvlen : (List.replicate a.size Cell.free).length = a.size := List.length_replicate _ _
        have hshape : pySliceAssign t.stk.store a.start (a.end_ + 1)
            (List.replicate a.size Cell.free) =
            pySliceAssign t.stk.store a.start (a.start + a.size)
              (List.replicate a.size Cell.free) := by
          rw [haend]
        have hlen : (dropRange t.stk a).store.length = t.stk.store.length := by
          have h1 := pySliceAssign_length t.stk.store a.start (List.replicate a.size Cell.free)
            (by rw [hvlen]; omega)
          rw [hvlen] at h1
          unfold dropRange
          simp only
          rw [hshape, h1]
        have hget : ∀ j, (dropRange t.stk a).store[j]? =
            if a.start ≤ j ∧ j < a.start + a.size then
              (List.replicate a.size Cell.free)[j - a.start]?
            else t.stk.store[j]? := by
          intro j
          have h1 := pySliceAssign_getElem? t.stk.store a.start (List.replicate a.size Cell.free)
            j (by rw [hvlen]; omega)
          rw [hvlen] at h1
          unfold dropRange
          simp only
          rw [hshape, h1]
        have hnodup : t.live.Nodup := live_nodup t ⟨hok, hpw⟩
        refine ⟨⟨?_, ?_⟩, hlen⟩
        · intro b hb
          simp only at hb
          have hbmem : b ≠ a ∧ b ∈ t.live := (List.Nodup.mem_erase_iff hnodup).mp hb
          obtain ⟨h1, h2, h3, h4⟩ := hok b hbmem.2
          have hdisj : DisjointA a b :=
            hpw.forall (fun x y hxy => disjointA_symm hxy) hmem hbmem.2 (Ne.symm hbmem.1)
          refine ⟨h1, h2, by first | omega | (simp only; omega), ?_⟩
          intro j hj1 hj2
          simp only at hj2 ⊢
          rw [hget j, if_neg ?_]
          · exact h4 j hj1 hj2
          · unfold DisjointA at hdisj
            omega
        · simp only
          exact hpw.sublist (List.erase_sublist a t.live)
      · rw [applyOp_drop_notmem t a hmem]
        exact ⟨⟨hok, hpw⟩, rfl⟩

theorem runOps_inv (n : Nat) (ops : List StackOp) :
    TraceInv (runOps n ops) ∧ (runOps n ops).stk.store.length = n := by
  unfold runOps
  suffices h : ∀ (t : Trace), TraceInv t →
      TraceInv (ops.foldl applyOp t) ∧
        (ops.foldl applyOp t).stk.store.length = t.stk.store.length by
    have hinit : TraceInv (initTrace n) := by
      constructor
      · intro a ha
        simp [initTrace] at ha
      · simp [initTrace]
    have := h (initTrace n) hinit
    refine ⟨this.1, ?_⟩
    rw [this.2]
    simp [initTrace, initStack]
  induction ops with
  | nil => intro t ht; exact ⟨ht, rfl⟩
  | cons op rest ih =>
      intro t ht
      have hstep := applyOp_inv t op ht
      have := ih (applyOp t op) hstep.1
      simp only [List.foldl_cons]
      exact ⟨this.1, by rw [this.2, hstep.2]⟩

/-- C4: after any sequence of allocate and drop operations on a fresh arena
of `N` bytes — in particular after any drop-free sequence of successful
allocations — every live allocation has positive size, satisfies
`end == start + size - 1`, lies entirely within `[0, N)`, and the live
allocations are pairwise non-overlapping. -/
theorem allocations_no_overlap (N : Nat) (ops : List StackOp) :
    (∀ a ∈ (runOps N ops).live,
        1 ≤ a.size ∧ a.end_ = a.start + a.size - 1 ∧ a.start + a.size ≤ N) ∧
      (runOps N ops).live.Pairwise DisjointA := by
  obtain ⟨⟨hok, hpw⟩, hlen⟩ := runOps_inv N ops
  refine ⟨?_, hpw⟩
  intro a ha
  obtain ⟨h1, h2, h3, _⟩ := hok a ha
  exact ⟨h1, by omega, by omega⟩

/-- Witness for C4: two successful size-2 allocations on a 4-byte arena
yield the disjoint allocations `(0,1,2)` and `(2,3,2)`. -/
theorem allocations_no_overlap_witness :
    DisjointA ⟨0, 1, 2⟩ ⟨2, 3, 2⟩ ∧ (0 : Nat) + 2 ≤ 4 ∧ (2 : Nat) + 2 ≤ 4 := by
  have h := allocations_no_overlap 4 [.allocOp 2, .allocOp 2]
  have hl : (runOps 4 [.allocOp 2, .allocOp 2]).live = [⟨0, 1, 2⟩, ⟨2, 3, 2⟩] := by decide
  refine ⟨?_, ?_, ?_⟩
  · have hp := h.2
    rw [hl] at hp
    exact (List.pairwise_cons.mp hp).1 _ (by simp)
  · exact (h.1 ⟨0, 1, 2⟩ (by rw [hl]; simp)).2.2
  · exact (h.1 ⟨2, 3, 2⟩ (by rw [hl]; simp)).2.2

/-! ### Claim C2: write-then-read round trips -/

theorem bytesToIntSigned_natToBytesBE (n u : Nat) (hu : u < 2 ^ (8 * n)) :
    bytesToIntSigned (natToBytesBE n u) =
      if u < 2 ^ (8 * n - 1) then (u : Int) else (u : Int) - (2 : Int) ^ (8 * n) := by
  simp only [bytesToIntSigned]
  rw [natToBytesBE_length, bytesToNatBE_natToBytesBE]
  have h256 : (256 : Nat) ^ n = 2 ^ (8 * n) := by
    rw [show (256 : Nat) = 2 ^ 8 from rfl, ← pow_mul]
  rw [h256, Nat.mod_eq_of_lt hu]

theorem fitsSigned_bounds (v : Int) (n : Nat) (h : fitsSigned v n = true) :
    (n = 0 ∧ v = 0) ∨
      (1 ≤ n ∧ -(2 : Int) ^ (8 * n - 1) ≤ v ∧ v < (2 : Int) ^ (8 * n - 1)) := by
  cases n with
  | zero =>
      left
      simp [fitsSigned] at h
      exact ⟨rfl, h⟩
  | succ m =>
      right
      simp only [fitsSigned, Bool.and_eq_true, decide_eq_true_eq] at h
      exact ⟨by omega, h.1, h.2⟩

theorem signed_roundtrip (v : Int) (n : Nat) (h : fitsSigned v n = true) :
    bytesToIntSigned (natToBytesBE n ((v.emod ((2 : Int) ^ (8 * n))).toNat)) = v := by
  rcases fitsSigned_bounds v n h with ⟨hn, hv⟩ | ⟨hn, hlo, hhi⟩
  · subst hn hv
    simp [natToBytesBE, bytesToIntSigned, bytesToNatBE]
  · have hpow : (2 : Int) ^ (8 * n) = 2 ^ (8 * n - 1) * 2 := by
      rw [← pow_succ]
      congr 1
      omega
    have hHpos : (0 : Int) < 2 ^ (8 * n - 1) := by positivity
    have hM0 : (0 : Int) < 2 ^ (8 * n) := by positivity
    have hcast : ((2 ^ (8 * n) : Nat) : Int) = (2 : Int) ^ (8 * n) := by push_cast; rfl
    rcases le_or_lt 0 v with hv0 | hv0
    · have hemod : v.emod ((2 : Int) ^ (8 * n)) = v :=
        Int.emod_eq_of_lt hv0 (by omega)
      rw [hemod]
      have hult : v.toNat < 2 ^ (8 * n) := by
        have : (v.toNat : Int) = v := Int.toNat_of_nonneg hv0
        omega
      rw [bytesToIntSigned_natToBytesBE n v.toNat hult]
      have hub : v.toNat < 2 ^ (8 * n - 1) := by
        have h1 : (v.toNat : Int) = v := Int.toNat_of_nonneg hv0
        have h2 : ((2 ^ (8 * n - 1) : Nat) : Int) = (2 : Int) ^ (8 * n - 1) := by
          push_cast
          rfl
        omega
      rw [if_pos hub]
      exact Int.toNat_of_nonneg hv0
    · have hplus : (0 : Int) ≤ v + 2 ^ (8 * n) := by omega
      have hemod : v.emod ((2 : Int) ^ (8 * n)) = v + 2 ^ (8 * n) := by
        have h1 : (v + 2 ^ (8 * n) * 1).emod ((2 : Int) ^ (8 * n)) =
            v.emod ((2 : Int) ^ (8 * n)) := Int.add_mul_emod_self_left v (2 ^ (8 * n)) 1
        have h2 : (v + 2 ^ (8 * n)).emod ((2 : Int) ^ (8 * n)) = v + 2 ^ (8 * n) :=
          Int.emod_eq_of_lt hplus (by omega)
        have h3 : v + 2 ^ (8 * n) * 1 = v + 2 ^ (8 * n) := by ring
        rw [h3, h2] at h1
        exact h1.symm
      rw [hemod]
      have hult : (v + 2 ^ (8 * n)).toNat < 2 ^ (8 * n) := by
        have : ((v + 2 ^ (8 * n)).toNat : Int) = v + 2 ^ (8 * n) := Int.toNat_of_nonneg hplus
        omega
      rw [bytesToIntSigned_natToBytesBE n _ hult]
      have htn : ((v + 2 ^ (8 * n)).toNat : Int) = v + 2 ^ (8 * n) := Int.toNat_of_nonneg hplus
      have hcast1 : ((2 ^ (8 * n - 1) : Nat) : Int) = (2 : Int) ^ (8 * n - 1) := by
        push_cast
        rfl
      have hnb : ¬ (v + 2 ^ (8 * n)).toNat < 2 ^ (8 * n - 1) := by omega
      rw [if_neg hnb]
      omega

theorem written_window (stk : StackSt) (a : Allocation) (vals : List Cell)
    (hend : a.end_ + 1 = a.start + a.size) (hvlen : vals.length = a.size)
    (hb : a.start + a.size ≤ stk.store.length) :
    ((pySliceAssign stk.store a.start (a.end_ + 1) vals).drop a.start).take
        (a.end_ + 1 - a.start) = vals := by
  have h1 := pySliceAssign_window stk.store a.start vals (by omega)
  rw [hend, Nat.add_sub_cancel_left, ← hvlen]
  exact h1

theorem get_bytes_INTEGER (stk : StackSt) (a : Allocation) (bs : List Nat)
    (hwin : (stk.store.drop a.start).take (a.end_ + 1 - a.start) = bs.map Cell.byte) :
    Stack.get stk a .INTEGER = .ok (.int (bytesToIntSigned bs)) := by
  unfold Stack.get
  rw [hwin]
  unfold getCast
  rw [map_byte_no_free bs, cellsToBytes_map_byte bs]
  rfl

theorem pyTruthy_byte_pos (c : Nat) (h : 1 ≤ c) : pyTruthy (Cell.byte c) = true := by
  cases c with
  | zero => omega
  | succ k => rfl

theorem filter_replicate_byte0 (pad : Nat) :
    (List.replicate pad (Cell.byte 0)).filter pyTruthy = [] := by
  induction pad with
  | zero => rfl
  | succ k ih => simp [List.replicate_succ, List.filter_cons, pyTruthy, ih]

theorem get_bytes_STRING (stk : StackSt) (a : Allocation) (s : List Nat) (pad : Nat)
    (hwin : (stk.store.drop a.start).take (a.end_ + 1 - a.start) =
      (s ++ List.replicate pad 0).map Cell.byte)
    (hpos : ∀ c ∈ s, 1 ≤ c ∧ c < 128) :
    Stack.get stk a .STRING = .ok (.str s) := by
  have hfilter : ((s ++ List.replicate pad 0).map Cell.byte).filter pyTruthy =
      s.map Cell.byte := by
    rw [List.map_append, List.filter_append, List.map_replicate, filter_replicate_byte0,
      List.append_nil, List.filter_eq_self.mpr]
    intro x hx
    obtain ⟨c, hc, hxc⟩ := List.mem_map.mp hx
    rw [← hxc]
    exact pyTruthy_byte_pos c (hpos c hc).1
  have hall : (s.all (fun c => decide (c < 128))) = true := by
    rw [List.all_eq_true]
    intro c hc
    exact decide_eq_true (hpos c hc).2
  unfold Stack.get
  rw [hwin]
  unfold getCast
  rw [map_byte_no_free, hfilter]
  simp [cellsToBytes_map_byte s, hall]

/-- C2 (amended): for every allocation `{start, end, size}` with
`end + 1 == start + size` lying inside the arena, (a) writing any integer
`v` that fits in `size` signed two's-complement bytes and reading back with
cast `INTEGER` yields `v`, and (b) writing any ASCII string of length
≤ `size` none of whose code points is the zero byte and reading back with
cast `STRING` yields the string. (The original claim's clause for arbitrary
ASCII strings fails: `STRING` reads drop every zero byte, not only the
trailing padding — see the counterexample.) -/
theorem write_get_roundtrip (stk : StackSt) (a : Allocation)
    (hend : a.end_ + 1 = a.start + a.size)
    (hb : a.start + a.size ≤ stk.store.length)
    (hsz : stk.store.length ≤ stk.size) :
    (∀ v : Int, fitsSigned v a.size = true →
        (write stk a (.int v)).bind (fun stk' => Stack.get stk' a .INTEGER) = .ok (.int v)) ∧
    (∀ s : List Nat, s.length ≤ a.size → (∀ c ∈ s, 1 ≤ c ∧ c < 128) →
        (write stk a (.str s)).bind (fun stk' => Stack.get stk' a .STRING) = .ok (.str s)) := by
  constructor
  · intro v hv
    have hlenbs : (natToBytesBE a.size ((v.emod ((2 : Int) ^ (8 * a.size))).toNat)).length =
        a.size := natToBytesBE_length _ _
    have hser : serialize (.int v) a.size =
        .ok (natToBytesBE a.size ((v.emod ((2 : Int) ^ (8 * a.size))).toNat)) := by
      simp [serialize, hv]
    have hwrite : write stk a (.int v) = .ok
        { stk with store := (pySliceAssign stk.store a.start (a.end_ + 1)
            ((natToBytesBE a.size ((v.emod ((2 : Int) ^ (8 * a.size))).toNat)).map Cell.byte)) } := by
      simp only [write, hser]
      rw [if_neg (by omega), if_neg (by omega)]
    rw [hwrite]
    show Stack.get _ a .INTEGER = _
    rw [get_bytes_INTEGER _ a (natToBytesBE a.size ((v.emod ((2 : Int) ^ (8 * a.size))).toNat))
      (written_window stk a _ hend (by rw [List.length_map, hlenbs]) hb),
      signed_roundtrip v a.size hv]
  · intro s hslen hpos
    have hall : (s.all (fun c => decide (c < 128))) = true := by
      rw [List.all_eq_true]
      intro c hc
      exact decide_eq_true (hpos c hc).2
    have hser : serialize (.str s) a.size = .ok (s ++ List.replicate (a.size - s.length) 0) := by
      simp [serialize, hall]
    have hsvlen : (s ++ List.replicate (a.size - s.length) 0).length = a.size := by
      simp
      omega
    have hwrite : write stk a (.str s) = .ok
        { stk with store := (pySliceAssign stk.store a.start (a.end_ + 1)
            ((s ++ List.replicate (a.size - s.length) 0).map Cell.byte)) } := by
      simp only [write, hser]
      rw [if_neg (by omega), if_neg (by omega)]
    rw [hwrite]
    show Stack.get _ a .STRING = _
    exact get_bytes_STRING _ a s (a.size - s.length)
      (written_window stk a _ hend (by rw [List.length_map, hsvlen]) hb) hpos

/-- Witness for C2: integer `-5` round-trips through a 2-byte allocation and
text "hi" (codes 104, 105) round-trips through a 4-byte allocation. -/
theorem write_get_roundtrip_witness :
    (write (initStack 4) ⟨0, 1, 2⟩ (.int (-5))).bind
        (fun stk' => Stack.get stk' ⟨0, 1, 2⟩ .INTEGER) = .ok (.int (-5)) ∧
    (write (initStack 4) ⟨0, 3, 4⟩ (.str [104, 105])).bind
        (fun stk' => Stack.get stk' ⟨0, 3, 4⟩ .STRING) = .ok (.str [104, 105]) :=
  ⟨(write_get_roundtrip (initStack 4) ⟨0, 1, 2⟩ (by decide) (by decide) (by decide)).1 (-5)
      (by decide),
    (write_get_roundtrip (initStack 4) ⟨0, 3, 4⟩ (by decide) (by decide) (by decide)).2
      [104, 105] (by decide) (by decide)⟩

/-- Counterexample for C2 as stated: the ASCII string "a\x00b"
(codes 97, 0, 98) of length 3 ≤ 4 written into a 4-byte allocation reads
back as "ab" (codes 97, 98) — the interior zero byte is dropped, not only
the trailing padding — so the round trip fails for it. -/
theorem string_zero_byte_counterexample :
    (write (initStack 4) ⟨0, 3, 4⟩ (.str [97, 0, 98])).bind
        (fun stk' => Stack.get stk' ⟨0, 3, 4⟩ .STRING) = .ok (.str [97, 98]) ∧
      ([97, 98] : List Nat) ≠ [97, 0, 98] := by
  exact ⟨by decide, by decide⟩

/-! ### Claim C5: line-number discipline of the constructor -/

theorem numberedStep_ok (all : List (List String)) (index : Nat) (inBlock : Bool)
    (lastLine : Nat) (prog : Program) (tok : String) (code_line : List String)
    (ib : Bool) (ll : Nat) (pg : Program)
    (h : numberedStep all index inBlock lastLine prog tok code_line = .ok (ib, ll, pg)) :
    pyIsNumeric tok = true ∧ ll = pyStrToNat tok ∧ lastLine < ll ∧ ll % 10 = 0 := by
  unfold numberedStep at h
  by_cases h1 : pyIsNumeric tok
  · rw [if_neg (by simp [h1])] at h
    split at h
    · exact absurd h (by simp)
    · split at h
      · exact absurd h (by simp)
      · rename_i hcond
        push_neg at hcond
        injection h with h2
        injection h2 with he1 he2
        injection he2 with he2 he3
        exact ⟨h1, he2.symm, by omega, by omega⟩
  · rw [if_pos (by simp [h1])] at h
    exact absurd h (by simp)

theorem numberedStep_nonnumeric (all : List (List String)) (index : Nat) (inBlock : Bool)
    (lastLine : Nat) (prog : Program) (tok : String) (code_line : List String)
    (h : pyIsNumeric tok = false) :
    numberedStep all index inBlock lastLine prog tok code_line = .error .syntaxErr := by
  unfold numberedStep
  rw [if_pos (by simp [h])]

theorem constructStep_nums (all : List (List String)) (index : Nat) (inBlock : Bool)
    (lastLine : Nat) (prog : Program) (l : List String) (ib : Bool) (ll : Nat) (pg : Program)
    (h : constructStep all index inBlock lastLine prog l = .ok (ib, ll, pg)) :
    (lineNum l = none ∧ ll = lastLine) ∨
      (lineNum l = some ll ∧ lastLine < ll ∧ ll % 10 = 0) := by
  unfold constructStep at h
  split at h
  · -- ["START"]
    split at h
    · rw [numberedStep_nonnumeric all index inBlock lastLine prog "START" [] (by decide)] at h
      exact absurd h (by simp)
    · left
      injection h with h2
      injection h2 with he1 he2
      injection he2 with he2 he3
      exact ⟨by decide, he2.symm⟩
  · -- ["PROGRAM", name]
    split at h
    · rw [numberedStep_nonnumeric all index inBlock lastLine prog "PROGRAM" _ (by decide)] at h
      exact absurd h (by simp)
    · left
      injection h with h2
      injection h2 with he1 he2
      injection he2 with he2 he3
      exact ⟨by simp [lineNum, show pyIsNumeric "PROGRAM" = false from by decide], he2.symm⟩
  · -- ["SIZE", size, system]
    split at h
    · rw [numberedStep_nonnumeric all index inBlock lastLine prog "SIZE" _ (by decide)] at h
      exact absurd h (by simp)
    · left
      split at h
      · exact absurd h (by simp)
      · split at h
        · exact absurd h (by simp)
        · injection h with h2
          injection h2 with he1 he2
          injection he2 with he2 he3
          exact ⟨by simp [lineNum, show pyIsNumeric "SIZE" = false from by decide], he2.symm⟩
  · -- ["."]
    split at h
    · exact absurd h (by simp)
    · split at h
      · exact absurd h (by simp)
      · left
        injection h with h2
        injection h2 with he1 he2
        injection he2 with he2 he3
        exact ⟨by decide, he2.symm⟩
  · -- numbered line
    rename_i tok code_line hne1 hne2 hne3 hne4
    right
    have hnum := numberedStep_ok all index inBlock lastLine prog tok code_line ib ll pg h
    refine ⟨?_, hnum.2.2.1, hnum.2.2.2⟩
    simp only [lineNum, hnum.1, if_true, hnum.2.1]
  · -- empty line
    exact absurd h (by simp)

theorem constructAux_nums (all : List (List String)) :
    ∀ (rest : List (List String)) (index : Nat) (inBlock : Bool) (lastLine : Nat)
      (prog p : Program),
      constructAux all rest index inBlock lastLine prog = .ok p →
      List.Chain' (· < ·) (lastLine :: numberedNums rest) ∧
        ∀ n ∈ numberedNums rest, n % 10 = 0 := by
  intro rest
  induction rest with
  | nil =>
      intro index inBlock lastLine prog p _
      constructor
      · simp [numberedNums]
      · simp [numberedNums]
  | cons l rest ih =>
      intro index inBlock lastLine prog p h
      simp only [constructAux] at h
      cases hstep : constructStep all index inBlock lastLine prog l with
      | error e => rw [hstep] at h; exact absurd h (by simp)
      | ok out =>
          obtain ⟨ib, ll, pg⟩ := out
          rw [hstep] at h
          have hrec := ih (index + 1) ib ll pg p h
          rcases constructStep_nums all index inBlock lastLine prog l ib ll pg hstep with
            ⟨hn0, hll⟩ | ⟨hn1, hlt, hmod⟩
          · have heq : numberedNums (l :: rest) = numberedNums rest := by
              unfold numberedNums
              rw [List.filterMap_cons, hn0]
            rw [heq]
            subst hll
            exact hrec
          · have heq : numberedNums (l :: rest) = ll :: numberedNums rest := by
              unfold numberedNums
              rw [List.filterMap_cons, hn1]
            rw [heq]
            refine ⟨?_, ?_⟩
            · rw [List.chain'_cons]
              exact ⟨hlt, hrec.1⟩
            · intro n hn
              simp only [List.mem_cons] at hn
              rcases hn with hn | hn
              · omega
              · exact hrec.2 n hn

/-- C5 (amended): construction enforces strictly increasing line numbers
that are multiples of 10, but does NOT require consecutive multiples:
`10, 20, 40` is accepted, `10, 20, 30` is accepted, while `10, 15` (not a
multiple of 10) and `10, 20, 20` (not increasing) are rejected. -/
theorem construct_line_numbers :
    (∀ (lines : List (List String)) (p : Program), construct_program lines = .ok p →
        List.Chain' (· < ·) (0 :: numberedNums lines) ∧
          ∀ n ∈ numberedNums lines, n % 10 = 0) ∧
    (construct_program [["START"], ["10", "cls"], ["20", "cls"], ["40", "cls"]]).isOk = true ∧
    (construct_program [["START"], ["10", "cls"], ["20", "cls"], ["30", "cls"]]).isOk = true ∧
    (construct_program [["START"], ["10", "cls"], ["15", "cls"]]).isOk = false ∧
    (construct_program [["START"], ["10", "cls"], ["20", "cls"], ["20", "cls"]]).isOk = false := by
  refine ⟨?_, by decide, by decide, by decide, by decide⟩
  intro lines p h
  exact constructAux_nums lines lines 0 false 0 ⟨none, 8192, [], []⟩ p h

/-- Witness for C5: on the accepted program `10, 20, 30` the extracted line
numbers are strictly increasing from 0. -/
theorem construct_line_numbers_witness :
    List.Chain' (· < ·)
      (0 :: numberedNums [["START"], ["10", "cls"], ["20", "cls"], ["30", "cls"]]) :=
  (construct_line_numbers.1 [["START"], ["10", "cls"], ["20", "cls"], ["30", "cls"]]
    ⟨none, 8192, [["cls"], ["cls"], ["cls"]], []⟩ (by decide)).1

/-- Counterexample for C5 as stated: a program whose numbered lines are
`10, 20, 40` — strictly increasing multiples of 10 but not consecutive —
constructs successfully, where the claim says construction fails. -/
theorem construct_10_20_40_counterexample :
    construct_program [["START"], ["10", "cls"], ["20", "cls"], ["40", "cls"]] =
      .ok ⟨none, 8192, [["cls"], ["cls"], ["cls"]], []⟩ := by
  decide

/-! ### Claim C3: cmp ordering and the ordered jumps -/

/-- C3, evaluated at the failing input (`10 cmp 5 3`, `20 jgt end`): the
`cmp` stores the not-equal tag — because the inequality check precedes the
ordering checks and `5 != 3` holds — so the following `jgt` falls through
to line 2 instead of jumping to the label at index 3, and the run continues
normally. The ordering results GREATERTHAN/LESSTHAN/GREATEROREQUAL/
LESSOREQUAL are unreachable. -/
theorem cmp_jgt_falls_through_eval :
    (runSteps exCmpJgt 1 (initEng exCmpJgt [])).cmpRes = some "jne" ∧
    (runSteps exCmpJgt 2 (initEng exCmpJgt [])).line = 2 ∧
    (runSteps exCmpJgt 2 (initEng exCmpJgt [])).status = .running ∧
    slxOf (runSteps exCmpJgt 2 (initEng exCmpJgt [])) = some (.int 0) := by
  decide

/-! ### Claim C6: oversized writes -/

/-- C6, evaluated at the failing input: `alc &x:[1]` then `set &x 200`
continues running with the error flag at 1 — the oversized integer raises
the builtin overflow error inside `int.to_bytes`, which is not a
`StackError`, so the engine's per-instruction recovery absorbs it — while
the analogous oversized string write `set &x "ab"` raises `MemoryOverflow`
and terminates the run as the claim demands. -/
theorem int_overflow_recoverable_eval :
    (runSteps exIntOverflow 2 (initEng exIntOverflow [])).status = .running ∧
    slxOf (runSteps exIntOverflow 2 (initEng exIntOverflow [])) = some (.int 1) ∧
    (runSteps exStrOverflow 2 (initEng exStrOverflow [])).status =
      .fatalErr .memoryOverflow := by
  decide

/-! ### Claim C7: cmp on differently-typed operands -/

/-- Counterexample for C7 as stated: running `cmp 1 "a"` (an integer
against a text) raises no error at all — the error-flag register is left
at 0, not 1 — because the inequality check resolves the comparison before
the type check is reached. -/
theorem cmp_mixed_flag_counterexample :
    slxOf (runSteps exCmpMixed 1 (initEng exCmpMixed [])) = some (.int 0) ∧
    (runSteps exCmpMixed 1 (initEng exCmpMixed [])).status = .running ∧
    (runSteps exCmpMixed 1 (initEng exCmpMixed [])).cmpRes = some "jne" := by
  decide

/-- C7 (amended): when a `cmp`'s two resolved operands are of different
variants, the equality check fails and the inequality check succeeds, so
the instruction completes successfully with the not-equal tag: the
differently-typed-ordering usage error is unreachable. -/
theorem cmp_mixed_types_sets_jne (p : Program) (s : EngState) (t1 t2 : String)
    (w1 w2 : Value) (h1 : process_value s.stk t1 = .ok w1)
    (h2 : process_value s.stk t2 = .ok w2) (hmix : sameType w1 w2 = false) :
    execInstr p s ["cmp", t1, t2] = .ok s.stk (some "jne") s.inputs := by
  have hne : w1 ≠ w2 := by
    intro heq
    subst heq
    cases w1 <;> simp [sameType] at hmix
  have hred : execInstr p s ["cmp", t1, t2] =
      (match process_value s.stk t1 with
       | .error e => .err e s.stk s.inputs
       | .ok w3 =>
           match process_value s.stk t2 with
           | .error e => .err e s.stk s.inputs
           | .ok w4 =>
               if w3 = w4 then .ok s.stk (some "jeq") s.inputs
               else if w3 ≠ w4 then .ok s.stk (some "jne") s.inputs
               else if ¬ sameType w3 w4 then .err .valueErr s.stk s.inputs
               else if pyGtB w3 w4 then .ok s.stk (some "jgt") s.inputs
               else if pyLtB w3 w4 then .ok s.stk (some "jlt") s.inputs
               else if pyGeB w3 w4 then .ok s.stk (some "jge") s.inputs
               else if pyLeB w3 w4 then .ok s.stk (some "jle") s.inputs
               else .ok s.stk s.cmpRes s.inputs) := rfl
  rw [hred, h1, h2]
  dsimp only
  rw [if_neg hne, if_pos hne]

/-- Witness for C7's amended claim at `cmp 1 "a"`. -/
theorem cmp_mixed_types_sets_jne_witness :
    execInstr exCmpMixed (initEng exCmpMixed []) ["cmp", "1", "\"a\""] =
      .ok (initEng exCmpMixed []).stk (some "jne") (initEng exCmpMixed []).inputs :=
  cmp_mixed_types_sets_jne exCmpMixed (initEng exCmpMixed []) "1" "\"a\"" (.int 1)
    (.str [97]) (by decide) (by decide) (by decide)

/-! ### Claim C8: the error-flag protocol -/

theorem lookup_map_set (vars : List (String × Binding)) (nm : String) (b0 b : Binding)
    (h : vars.lookup nm = some b0) :
    (vars.map (fun pr => if pr.1 = nm then (nm, b) else pr)).lookup nm = some b := by
  induction vars with
  | nil => simp at h
  | cons pr rest ih =>
      obtain ⟨k, v⟩ := pr
      by_cases hk : k = nm
      · subst hk
        rw [List.map_cons, if_pos rfl]
        simp [List.lookup]
      · have hne : (nm == k) = false := beq_eq_false_iff_ne.mpr (fun hh => hk hh.symm)
        rw [List.map_cons, if_neg (by simpa using hk)]
        simp only [List.lookup, hne] at h ⊢
        exact ih h

theorem writeFlag_ok (stk : StackSt) (w : Value) (code : Nat)
    (h : lookupVar stk "slx" = some (.reservedRegister w)) :
    writeFlag stk code = .ok (setVar stk "slx" (.reservedRegister (.int code))) := by
  unfold writeFlag write_variable
  rw [h]
  rfl

theorem lookup_after_flag (stk : StackSt) (w : Value) (code : Nat)
    (h : lookupVar stk "slx" = some (.reservedRegister w)) :
    lookupVar (setVar stk "slx" (.reservedRegister (.int code))) "slx" =
      some (.reservedRegister (.int code)) := by
  show (stk.vars.map (fun pr =>
      if pr.1 = "slx" then ("slx", Binding.reservedRegister (.int code)) else pr)).lookup "slx" =
    some (.reservedRegister (.int code))
  exact lookup_map_set stk.vars "slx" _ _ h

theorem slxOf_flag (line : Nat) (cmp : Option String) (stk2 : StackSt)
    (inp : List (List Nat)) (w : Value) (code : Nat)
    (hslx : lookupVar stk2 "slx" = some (.reservedRegister w)) :
    slxOf ⟨line, cmp, setVar stk2 "slx" (.reservedRegister (.int code)), inp, .running⟩ =
      some (.int code) := by
  show (match lookupVar (setVar stk2 "slx" (.reservedRegister (.int code))) "slx" with
        | some (.reservedRegister v) => some v
        | _ => none) = some (.int code)
  rw [lookup_after_flag stk2 w code hslx]

/-- C8 (amended): after every instruction whose attempted execution neither
terminates the run nor takes a conditional jump, the engine writes the
error-flag reserved register through the privileged path — 1 if the
instruction raised a recoverable (non-`StackError`) exception, 0 if it
completed — and advances to the next line; a `StackError` aborts the run;
but a TAKEN jump bypasses the flag write entirely, leaving the stack
exactly as the instruction returned it. -/
theorem error_flag_protocol (p : Program) (s : EngState) (toks : List String)
    (hst : s.status = .running) (hline : p.lines[s.line]? = some toks) :
    (∀ stk2 cmp2 inp2 w, execInstr p s toks = .ok stk2 cmp2 inp2 →
        lookupVar stk2 "slx" = some (.reservedRegister w) →
        slxOf (step p s) = some (.int 0) ∧ (step p s).line = s.line + 1) ∧
    (∀ e stk2 inp2 w, execInstr p s toks = .err e stk2 inp2 → e.isStackError = false →
        lookupVar stk2 "slx" = some (.reservedRegister w) →
        slxOf (step p s) = some (.int 1) ∧ (step p s).line = s.line + 1) ∧
    (∀ e stk2 inp2, execInstr p s toks = .err e stk2 inp2 → e.isStackError = true →
        (step p s).status = .fatalErr e) ∧
    (∀ t stk2, execInstr p s toks = .jumped t stk2 →
        (step p s).stk = stk2 ∧ (step p s).line = t ∧ (step p s).status = .running) := by
  refine ⟨?_, ?_, ?_, ?_⟩
  · intro stk2 cmp2 inp2 w hexec hslx
    have hstep : step p s =
        { line := s.line + 1, cmpRes := cmp2,
          stk := setVar stk2 "slx" (.reservedRegister (.int 0)), inputs := inp2,
          status := .running } := by
      unfold step
      rw [hst, hline]
      dsimp only
      rw [hexec]
      dsimp only
      rw [writeFlag_ok stk2 w 0 hslx]
      rfl
    rw [hstep]
    exact ⟨slxOf_flag (s.line + 1) cmp2 stk2 inp2 w 0 hslx, rfl⟩
  · intro e stk2 inp2 w hexec hrec hslx
    have hstep : step p s =
        { line := s.line + 1, cmpRes := s.cmpRes,
          stk := setVar stk2 "slx" (.reservedRegister (.int 1)), inputs := inp2,
          status := .running } := by
      unfold step
      rw [hst, hline]
      dsimp only
      rw [hexec]
      dsimp only
      rw [hrec, if_neg (by simp)]
      rw [writeFlag_ok stk2 w 1 hslx]
      rfl
    rw [hstep]
    exact ⟨slxOf_flag (s.line + 1) s.cmpRes stk2 inp2 w 1 hslx, rfl⟩
  · intro e stk2 inp2 hexec hfat
    have hstep : step p s = { s with status := .fatalErr e, stk := stk2, inputs := inp2 } := by
      unfold step
      rw [hst, hline]
      dsimp only
      rw [hexec]
      dsimp only
      rw [hfat, if_pos rfl]
    rw [hstep]
  · intro t stk2 hexec
    have hstep : step p s = { s with line := t, stk := stk2 } := by
      unfold step
      rw [hst, hline]
      dsimp only
      rw [hexec]
    rw [hstep]
    exact ⟨rfl, rfl, hst⟩

/-- Witness for C8's amended claim: the successful `cmp 1 1` at line 0 of
the example program gets flag 0 and advances to line 1. -/
theorem error_flag_protocol_witness :
    slxOf (step exTakenJump (initEng exTakenJump [])) = some (.int 0) ∧
      (step exTakenJump (initEng exTakenJump [])).line = (initEng exTakenJump []).line + 1 :=
  (error_flag_protocol exTakenJump (initEng exTakenJump []) ["cmp", "1", "1"] (by decide)
    (by decide)).1 (initEng exTakenJump []).stk (some "jeq") [] (.int 0) (by decide) (by decide)

/-- Counterexample for C8 as stated: in `cmp 1 1; out abc; jeq end`, the
`out abc` step leaves the flag at 1, and the following TAKEN `jeq` — a
successfully executed instruction — does not write the flag at all (the
`continue` path skips the write), so after it the flag still reads 1
instead of the claimed 0. -/
theorem taken_jump_skips_flag_counterexample :
    (runSteps exTakenJump 3 (initEng exTakenJump [])).line = 3 ∧
    (runSteps exTakenJump 3 (initEng exTakenJump [])).status = .running ∧
    slxOf (runSteps exTakenJump 3 (initEng exTakenJump [])) = some (.int 1) := by
  decide

/-! ### Claim C9: writability of the reserved registers -/

/-- C9 (amended): every reserved register — the two general-purpose ones
included — rejects every write through the ordinary non-privileged path
with the reserved-name error; only the engine's privileged path can write
a reserved register. -/
theorem reserved_rejects_ordinary_write (stk : StackSt) (name : String) (w v : Value)
    (h : lookupVar stk name = some (.reservedRegister w)) :
    write_variable stk name v false = .error (.reservedName, stk) ∧
      write_variable stk name v true = .ok (setVar stk name (.reservedRegister v)) := by
  constructor <;> (unfold write_variable; rw [h]; rfl)

/-- Witness for C9's amended claim at the fresh stack's register `sly`. -/
theorem reserved_rejects_ordinary_write_witness :
    write_variable (initStack 8) "sly" (.int 7) false = .error (.reservedName, initStack 8) :=
  (reserved_rejects_ordinary_write (initStack 8) "sly" (.int 0) (.int 7) (by decide)).1

/-- Counterexample for C9 as stated (its negation): for the general-purpose
reserved registers `sly` and `slz` of a fresh stack, EVERY value is
rejected by the ordinary write path with the reserved-name error — no
value exists for which the write completes. -/
theorem reserved_write_counterexample :
    (∀ v : Value, write_variable (initStack 8) "sly" v false =
        .error (.reservedName, initStack 8)) ∧
    (∀ v : Value, write_variable (initStack 8) "slz" v false =
        .error (.reservedName, initStack 8)) := by
  constructor <;> intro v <;> rfl

/-! ### Claim C10: `jnq` can never be taken -/

theorem outCase_cmpRes (s : EngState) (m : String) (stk2 : StackSt) (cmp2 : Option String)
    (inp2 : List (List Nat)) (h : outCase s m = .ok stk2 cmp2 inp2) : cmp2 = s.cmpRes := by
  unfold outCase at h
  repeat' split at h
  all_goals first
    | (injection h with h1 h2 h3; exact h2.symm)
    | injection h

theorem alcCase_cmpRes (s : EngState) (v a : String) (stk2 : StackSt) (cmp2 : Option String)
    (inp2 : List (List Nat)) (h : alcCase s v a = .ok stk2 cmp2 inp2) : cmp2 = s.cmpRes := by
  unfold alcCase at h
  repeat' split at h
  all_goals first
    | (injection h with h1 h2 h3; exact h2.symm)
    | injection h

theorem inpCase_cmpRes (s : EngState) (v a : String) (stk2 : StackSt) (cmp2 : Option String)
    (inp2 : List (List Nat)) (h : inpCase s v a = .ok stk2 cmp2 inp2) : cmp2 = s.cmpRes := by
  unfold inpCase at h
  repeat' split at h
  all_goals first
    | (injection h with h1 h2 h3; exact h2.symm)
    | injection h

theorem drpCase_cmpRes (s : EngState) (v : String) (stk2 : StackSt) (cmp2 : Option String)
    (inp2 : List (List Nat)) (h : drpCase s v = .ok stk2 cmp2 inp2) : cmp2 = s.cmpRes := by
  unfold drpCase at h
  repeat' split at h
  all_goals first
    | (injection h with h1 h2 h3; exact h2.symm)
    | injection h

theorem setCase_cmpRes (s : EngState) (v a : String) (stk2 : StackSt) (cmp2 : Option String)
    (inp2 : List (List Nat)) (h : setCase s v a = .ok stk2 cmp2 inp2) : cmp2 = s.cmpRes := by
  unfold setCase at h
  repeat' split at h
  all_goals first
    | (injection h with h1 h2 h3; exact h2.symm)
    | injection h

theorem arithCase_cmpRes (s : EngState) (op n1 n2 v : String) (stk2 : StackSt)
    (cmp2 : Option String) (inp2 : List (List Nat))
    (h : arithCase s op n1 n2 v = .ok stk2 cmp2 inp2) : cmp2 = s.cmpRes := by
  unfold arithCase at h
  repeat' split at h
  all_goals first
    | (injection h with h1 h2 h3; exact h2.symm)
    | injection h

theorem cstCase_cmpRes (s : EngState) (v a : String) (stk2 : StackSt) (cmp2 : Option String)
    (inp2 : List (List Nat)) (h : cstCase s v a = .ok stk2 cmp2 inp2) : cmp2 = s.cmpRes := by
  unfold cstCase at h
  repeat' split at h
  all_goals first
    | (injection h with h1 h2 h3; exact h2.symm)
    | injection h

theorem jumpCase_cmpRes (p : Program) (s : EngState) (jt lb : String) (stk2 : StackSt)
    (cmp2 : Option String) (inp2 : List (List Nat))
    (h : jumpCase p s jt lb = .ok stk2 cmp2 inp2) : cmp2 = s.cmpRes := by
  unfold jumpCase at h
  repeat' split at h
  all_goals first
    | (injection h with h1 h2 h3; exact h2.symm)
    | injection h

theorem cmpCase_cmpRes (s : EngState) (t1 t2 : String) (stk2 : StackSt)
    (cmp2 : Option String) (inp2 : List (List Nat))
    (h : cmpCase s t1 t2 = .ok stk2 cmp2 inp2) :
    cmp2 = s.cmpRes ∨ cmp2 = some "jeq" ∨ cmp2 = some "jne" := by
  unfold cmpCase at h
  repeat' split at h
  all_goals first
    | (injection h with h1 h2 h3; first
        | exact Or.inl h2.symm
        | exact Or.inr (Or.inl h2.symm)
        | exact Or.inr (Or.inr h2.symm)
        | tauto)
    | injection h
    | tauto

/-- The only comparison tags an instruction can store are `"jeq"` and
`"jne"`: every completed instruction either keeps the previous tag or sets
one of those two. -/
theorem execInstr_cmpRes (p : Program) (s : EngState) (toks : List String) (stk2 : StackSt)
    (cmp2 : Option String) (inp2 : List (List Nat))
    (h : execInstr p s toks = .ok stk2 cmp2 inp2) :
    cmp2 = s.cmpRes ∨ cmp2 = some "jeq" ∨ cmp2 = some "jne" := by
  unfold execInstr at h
  repeat' split at h
  all_goals first
    | (injection h with h1 h2 h3; exact Or.inl h2.symm)
    | injection h
    | exact Or.inl (outCase_cmpRes _ _ _ _ _ h)
    | exact Or.inl (alcCase_cmpRes _ _ _ _ _ _ h)
    | exact Or.inl (inpCase_cmpRes _ _ _ _ _ _ h)
    | exact Or.inl (drpCase_cmpRes _ _ _ _ _ h)
    | exact Or.inl (setCase_cmpRes _ _ _ _ _ _ h)
    | exact Or.inl (arithCase_cmpRes _ _ _ _ _ _ _ _ h)
    | exact Or.inl (cstCase_cmpRes _ _ _ _ _ _ h)
    | exact Or.inl (jumpCase_cmpRes _ _ _ _ _ _ _ h)
    | exact cmpCase_cmpRes _ _ _ _ _ _ h

/-- The comparison-tag invariant is preserved by one engine step. -/
theorem step_cmpOK (p : Program) (s : EngState)
    (h : s.cmpRes = none ∨ s.cmpRes = some "jeq" ∨ s.cmpRes = some "jne") :
    (step p s).cmpRes = none ∨ (step p s).cmpRes = some "jeq" ∨
      (step p s).cmpRes = some "jne" := by
  unfold step
  split
  · exact h
  · exact h
  · split
    · exact h
    · rename_i toks hline
      cases hexec : execInstr p s toks with
      | jumped t stk2 => exact h
      | ok stk2 cmp2 inp2 =>
          have hc := execInstr_cmpRes p s toks stk2 cmp2 inp2 hexec
          dsimp only
          split
          · rcases hc with hc | hc | hc <;> rw [hc]
            · exact h
            · right; left; rfl
            · right; right; rfl
          · rcases hc with hc | hc | hc <;> rw [hc]
            · exact h
            · right; left; rfl
            · right; right; rfl
      | err e stk2 inp2 =>
          dsimp only
          split
          · exact h
          · split
            · exact h
            · exact h

/-- The comparison-tag invariant holds in every reachable state. -/
theorem runSteps_cmpOK (p : Program) (inputs : List (List Nat)) (n : Nat) :
    (runSteps p n (initEng p inputs)).cmpRes = none ∨
      (runSteps p n (initEng p inputs)).cmpRes = some "jeq" ∨
      (runSteps p n (initEng p inputs)).cmpRes = some "jne" := by
  suffices hgen : ∀ (s : EngState),
      (s.cmpRes = none ∨ s.cmpRes = some "jeq" ∨ s.cmpRes = some "jne") →
      ((runSteps p n s).cmpRes = none ∨ (runSteps p n s).cmpRes = some "jeq" ∨
        (runSteps p n s).cmpRes = some "jne") by
    exact hgen (initEng p inputs) (Or.inl rfl)
  induction n with
  | zero => intro s hs; exact hs
  | succ m ih => intro s hs; exact ih (step p s) (step_cmpOK p s hs)

/-- C10: in every execution, whatever program, input and number of steps
led to the current state, when the current instruction is `jnq <label>` it
is never taken: `cmp` only ever stores the tags `"jeq"` and `"jne"`, the
taken-jump test compares the stored tag against the opcode token `"jnq"`,
and `"jne" ≠ "jnq"` — so the instruction completes as a fall-through
no-op, never transferring control to its label. -/
theorem jnq_never_taken (p : Program) (inputs : List (List Nat)) (n : Nat) (lb : String)
    (hline : p.lines[(runSteps p n (initEng p inputs)).line]? = some ["jnq", lb]) :
    execInstr p (runSteps p n (initEng p inputs)) ["jnq", lb] =
      .ok (runSteps p n (initEng p inputs)).stk (runSteps p n (initEng p inputs)).cmpRes
        (runSteps p n (initEng p inputs)).inputs := by
  have hc := runSteps_cmpOK p inputs n
  have hred : execInstr p (runSteps p n (initEng p inputs)) ["jnq", lb] =
      jumpCase p (runSteps p n (initEng p inputs)) "jnq" lb := rfl
  rw [hred]
  unfold jumpCase
  rw [if_neg ?_]
  rcases hc with h | h | h <;> simp [h]

/-- Witness for C10: in the program `cmp 1 2; jnq end`, after the `cmp`
step the current instruction is the `jnq`, and executing it yields the
fall-through outcome. -/
theorem jnq_never_taken_witness :
    execInstr exJnq (runSteps exJnq 1 (initEng exJnq [])) ["jnq", "end"] =
      .ok (runSteps exJnq 1 (initEng exJnq [])).stk
        (runSteps exJnq 1 (initEng exJnq [])).cmpRes
        (runSteps exJnq 1 (initEng exJnq [])).inputs :=
  jnq_never_taken exJnq [] 1 "end" (by decide)
